import Mathlib

/-!
Verification of the bank-statement transaction extraction engine.

Shallow embedding of the Python sources:
  backend/extractors/financial_rules.py
  backend/extractors/regex_extractor.py
  backend/validators/financial_validator.py
  backend/main.py

Modelling conventions:
* Python floats are modelled as rationals; all amounts flowing through the
  program are produced by parsing decimal strings with at most two
  fractional digits, on which float arithmetic used here (abs, negation,
  2-digit formatting) is exact.
* Python exceptions are modelled with Option: a raising call site returns
  none and the surrounding try/except branch is taken explicitly.
* Python `datetime.now().year` is threaded as an explicit `year : Nat`
  parameter.
* Regexes are modelled by hand-rolled scanners implementing the exact
  pattern semantics (alternation order, greediness, word boundaries) of
  the patterns appearing in the source; the analysis is restricted to the
  ASCII character classes the patterns use.
-/

namespace CompanyApp

/-- ASCII word character, the `\w`/`\b` class of the source regexes
(the statements handled are ASCII). -/
def isWordChar (c : Char) : Bool :=
  c.isAlphanum || c = '_'

/-- `needle` occurs as a prefix of `hay` (char lists). -/
def listStartsWith : List Char → List Char → Bool
  | [], _ => true
  | _ :: _, [] => false
  | a :: as, b :: bs => a = b && listStartsWith as bs

/-- Python's substring test `needle in hay` on char lists. -/
def listContainsSub (hay needle : List Char) : Bool :=
  if listStartsWith needle hay then true
  else
    match hay with
    | [] => false
    | _ :: t => listContainsSub t needle

/-- Python's `needle in hay` on strings. -/
def strContainsSub (hay needle : String) : Bool :=
  listContainsSub hay.data needle.data

/-- Length of the leading run of ASCII digits. -/
def digitRun : List Char → Nat
  | [] => 0
  | c :: t => if c.isDigit then digitRun t + 1 else 0

/-- Value of a list of ASCII digit characters read as a base-10 natural. -/
def digitsToNat (cs : List Char) : Nat :=
  cs.foldl (fun n c => n * 10 + (c.toNat - '0'.toNat)) 0

/-! Python str methods, modelled structurally over the character list
(ASCII view, which is what the statements handled contain). -/

/-- Python `s.strip()`. -/
def pyStrip (s : String) : String :=
  ⟨((s.data.dropWhile Char.isWhitespace).reverse.dropWhile
      Char.isWhitespace).reverse⟩

/-- Python `s.lower()`. -/
def pyLower (s : String) : String :=
  ⟨s.data.map Char.toLower⟩

/-- Python `s[n:]`. -/
def strDrop (s : String) (n : Nat) : String :=
  ⟨s.data.drop n⟩

/-- Python `s[:n]`. -/
def strTake (s : String) (n : Nat) : String :=
  ⟨s.data.take n⟩

/-- Helper for `splitOnChar`: accumulates the current part (reversed). -/
def splitOnCharAux (sep : Char) : List Char → List Char → List String
  | [], acc => [⟨acc.reverse⟩]
  | c :: t, acc =>
    if c = sep then ⟨acc.reverse⟩ :: splitOnCharAux sep t []
    else splitOnCharAux sep t (c :: acc)

/-- Python `s.split(sep)` for a one-character separator. -/
def splitOnChar (sep : Char) (s : String) : List String :=
  splitOnCharAux sep s.data []

/-- Lexicographic order on char lists by code point. -/
def listLexLe : List Char → List Char → Bool
  | [], _ => true
  | _ :: _, [] => false
  | a :: as, b :: bs =>
    if a < b then true else if b < a then false else listLexLe as bs

/-- Python's `a <= b` on strings: lexicographic by code point. -/
def pyStrLe (a b : String) : Bool :=
  listLexLe a.data b.data

/-- Python `sep.join(xs)`. -/
def joinWith (sep : String) : List String → String
  | [] => ""
  | [x] => x
  | x :: xs => x ++ sep ++ joinWith sep xs

/-! ## financial_rules.py -/

/-- `TransactionType` enumeration. -/
inductive TransactionType where
  | CREDIT
  | DEBIT
  | UNKNOWN
deriving DecidableEq

/-- `TransactionType.value` (the enum's string value). -/
def TransactionType.value : TransactionType → String
  | .CREDIT => "credit"
  | .DEBIT => "debit"
  | .UNKNOWN => "unknown"

/-- Tag used in the state-change history entries. -/
def TransactionType.tag : TransactionType → String
  | .CREDIT => "CREDIT"
  | .DEBIT => "DEBIT"
  | .UNKNOWN => "UNKNOWN"

/-- `CategoryState.CREDIT_HEADERS`. -/
def CREDIT_HEADERS : List String :=
  ["deposits and additions",
   "deposits and other credits",
   "deposits & additions",
   "deposits & other credits",
   "credits",
   "deposits"]

/-- `CategoryState.DEBIT_HEADERS`. -/
def DEBIT_HEADERS : List String :=
  ["electronic withdrawals",
   "withdrawals and other debits",
   "withdrawals & other debits",
   "electronic withdrawals & debits",
   "debits",
   "withdrawals",
   "checks paid",
   "atm withdrawals"]

/-- `CategoryState`: current polarity, category label, transition history. -/
structure CategoryState where
  current_state : TransactionType
  current_category : Option String
  state_history : List (String × String)
deriving DecidableEq

/-- `CategoryState.__init__`. -/
def CategoryState.init : CategoryState :=
  ⟨TransactionType.UNKNOWN, none, []⟩

/-- `CategoryState.update_state`: returns the updated state and the bool
the method returns. -/
def CategoryState.update_state (st : CategoryState) (line : String) :
    CategoryState × Bool :=
  let line_lower := pyLower (pyStrip line)
  if line_lower ∈ CREDIT_HEADERS then
    (⟨TransactionType.CREDIT, some (pyStrip line),
      st.state_history ++ [("CREDIT", pyStrip line)]⟩, true)
  else if line_lower ∈ DEBIT_HEADERS then
    (⟨TransactionType.DEBIT, some (pyStrip line),
      st.state_history ++ [("DEBIT", pyStrip line)]⟩, true)
  else (st, false)

/-- `CategoryState.is_valid_state`. -/
def CategoryState.is_valid_state (st : CategoryState) : Bool :=
  decide (st.current_state ≠ TransactionType.UNKNOWN)

/-- `apply_sign_to_amount`: abs, then keep positive for credit, negate for
debit, keep positive for unknown. -/
def apply_sign_to_amount (amount : ℚ) (transaction_type : TransactionType) : ℚ :=
  let amount := |amount|
  match transaction_type with
  | .CREDIT => amount
  | .DEBIT => -amount
  | .UNKNOWN => amount

/-- The integer number of cents of `q`, rounded half to even: the value
behind Python's fixed 2-decimal float formatting (exact on the
exactly-representable inputs reaching it).  Computed on the normalized
fraction with floor division. -/
def centsHalfEven (q : ℚ) : ℤ :=
  let n := q.num * 100
  let d := (q.den : ℤ)
  let f := Int.fdiv n d
  let r := n - f * d
  if 2 * r < d then f
  else if d < 2 * r then f + 1
  else if f % 2 = 0 then f else f + 1

/-- Render a natural below 100 as exactly two digits. -/
def two_digit_str (n : ℕ) : String :=
  if n < 10 then "0" ++ toString n else toString n

/-- Render a nonnegative rational in fixed 2-decimal notation, the `:.2f`
format applied to a nonnegative value. -/
def fixed2 (q : ℚ) : String :=
  let c := (centsHalfEven q).toNat
  toString (c / 100) ++ "." ++ two_digit_str (c % 100)

/-- `format_amount_display`: `+X.XX` for `amount >= 0`, `-X.XX` otherwise
(for negative input the `:.2f` format itself emits the minus sign, which
equals formatting the absolute value after a literal minus). -/
def format_amount_display (amount : ℚ) : String :=
  if 0 ≤ amount then "+" ++ fixed2 amount
  else "-" ++ fixed2 (-amount)

/-! ## regex_extractor.py: regex scanners

`AMOUNT_PATTERN = \b(\d{1,3}(?:,\d{3})*\.\d{2})\b`.

At a given start position the pattern's backtracking is vacuous: shrinking
the greedy `\d{1,3}` resumes on a digit where `,` or `.` is required, and
dropping a greedy `(?:,\d{3})` group resumes on a `,` where `.` is
required.  So matching at a position is deterministic: a leading digit run
of length 1–3, maximal `,ddd` groups, then `.dd` and a word boundary. -/

/-- Chars consumed by the maximal run of `,ddd` groups at the head. -/
def commaGroups : List Char → Nat
  | ',' :: a :: b :: c :: t =>
    if a.isDigit && b.isDigit && c.isDigit then 4 + commaGroups t else 0
  | _ => 0

/-- Length of the `AMOUNT_PATTERN` token matched at the head of `cs`
(start word boundary is the caller's duty; the trailing `\b` is checked). -/
def matchAmountCore (cs : List Char) : Option Nat :=
  let r := digitRun cs
  if r = 0 ∨ 3 < r then none
  else
    let g := commaGroups (cs.drop r)
    match cs.drop (r + g) with
    | '.' :: d1 :: d2 :: t =>
      if d1.isDigit && d2.isDigit &&
          (match t with | [] => true | x :: _ => !isWordChar x) then
        some (r + g + 3)
      else none
    | _ => none

/-- `AMOUNT_PATTERN.finditer`: all non-overlapping matches, left to right,
as (matched token, start index) pairs.  `skip` counts positions still
covered by the previous match; `prevIsWord` tracks the `\b` start
boundary. -/
def amountFindAllAux : List Char → Nat → Bool → Nat → List (String × Nat)
  | [], _, _, _ => []
  | c :: rest, idx, prevIsWord, skip =>
    if 0 < skip then amountFindAllAux rest (idx + 1) (isWordChar c) (skip - 1)
    else if !prevIsWord then
      match matchAmountCore (c :: rest) with
      | some n =>
        (⟨(c :: rest).take n⟩, idx) ::
          amountFindAllAux rest (idx + 1) (isWordChar c) (n - 1)
      | none => amountFindAllAux rest (idx + 1) (isWordChar c) 0
    else amountFindAllAux rest (idx + 1) (isWordChar c) 0

/-- All `AMOUNT_PATTERN` matches in `s` with their start positions. -/
def AMOUNT_PATTERN_finditer (s : String) : List (String × Nat) :=
  amountFindAllAux s.data 0 false 0

/-- `AMOUNT_PATTERN.search` succeeds. -/
def AMOUNT_PATTERN_search (s : String) : Bool :=
  !(AMOUNT_PATTERN_finditer s).isEmpty

/-! `DATE_PATTERN`: four alternatives tried in source order.  A `\d{1,2}`
that is followed by a separator matches exactly the digit run (runs of
length 3+ fail: backtracking resumes on a digit where a separator is
required); a final `\d{1,2}` takes `min 2 run`. -/

/-- One slash-or-hyphen separator. -/
def sepTok : List Char → Option Nat
  | c :: _ => if c = '/' || c = '-' then some 1 else none
  | [] => none

/-- `\d{1,2}` followed by more pattern: the digit run must have length 1
or 2. -/
def fMid12 (cs : List Char) : Option Nat :=
  let r := digitRun cs
  if r = 1 ∨ r = 2 then some r else none

/-- Final `\d{1,2}` of an alternative: greedy `min 2 run`, run nonempty. -/
def fLast12 (cs : List Char) : Option Nat :=
  let r := digitRun cs
  if r = 0 then none else some (min 2 r)

/-- `\d{4}`: exactly four digits (more digits may follow unmatched). -/
def f4 : List Char → Option Nat
  | a :: b :: c :: d :: _ =>
    if a.isDigit && b.isDigit && c.isDigit && d.isDigit then some 4 else none
  | _ => none

/-- `\d{2}` closing an alternative: exactly two digits. -/
def f2 : List Char → Option Nat
  | a :: b :: _ => if a.isDigit && b.isDigit then some 2 else none
  | _ => none

/-- Match a sequence of sub-patterns, summing consumed lengths. -/
def matchSeq : List (List Char → Option Nat) → List Char → Option Nat
  | [], _ => some 0
  | f :: fs, cs =>
    match f cs with
    | none => none
    | some n => (matchSeq fs (cs.drop n)).map (n + ·)

/-- `DATE_PATTERN.match`: the matched group, or none.  Alternatives in
source order: `MM/DD/YYYY`, `MM/DD/YY`, `YYYY-MM-DD`, `MM/DD`. -/
def DATE_PATTERN_match (s : String) : Option String :=
  let cs := s.data
  match matchSeq [fMid12, sepTok, fMid12, sepTok, f4] cs <|>
        matchSeq [fMid12, sepTok, fMid12, sepTok, f2] cs <|>
        matchSeq [f4, sepTok, fMid12, sepTok, fLast12] cs <|>
        matchSeq [fMid12, sepTok, fLast12] cs with
  | none => none
  | some n => some ⟨cs.take n⟩

/-- Entire `cs` is one `\d{1,3}(,\d{3})*` token with a `\.\d{2}` suffix
that is optional iff `decimalsOptional` (anchored at both ends, so
backtracking is again vacuous). -/
def numFullMatch (cs : List Char) (decimalsOptional : Bool) : Bool :=
  let r := digitRun cs
  if r = 0 ∨ 3 < r then false
  else
    let g := commaGroups (cs.drop r)
    match cs.drop (r + g) with
    | [] => decimalsOptional
    | '.' :: d1 :: d2 :: t => d1.isDigit && d2.isDigit && t.isEmpty
    | _ => false

/-- `re.match(r'^\s*(\d{1,3}(?:,\d{3})*(?:\.\d{2})?)\s*$', line)`:
the captured amount token of an amount-only line. -/
def amount_only_match (line : String) : Option String :=
  let cs := line.data.dropWhile Char.isWhitespace
  let cs := (cs.reverse.dropWhile Char.isWhitespace).reverse
  if numFullMatch cs true then some ⟨cs⟩ else none

/-- `re.match(r'^\s*\$?\s*\d{1,3}(?:,\d{3})*\.\d{2}\s*$', line)`: a
stand-alone balance-shaped amount line. -/
def standalone_amount_line (line : String) : Bool :=
  let cs := line.data.dropWhile Char.isWhitespace
  let cs := match cs with
    | '$' :: t => t.dropWhile Char.isWhitespace
    | _ => cs
  let cs := (cs.reverse.dropWhile Char.isWhitespace).reverse
  numFullMatch cs false

/-- Digit chars with at most one dot, read as a decimal fraction: the
fragment of Python `float()` its call sites can reach. -/
def pyFloatOfClean (cs : List Char) : Option ℚ :=
  let ip := cs.takeWhile (· ≠ '.')
  match cs.drop ip.length with
  | [] =>
    if !ip.isEmpty && ip.all Char.isDigit then some (digitsToNat ip) else none
  | _ :: fp =>
    if ip.all Char.isDigit && fp.all Char.isDigit &&
        (!ip.isEmpty || !fp.isEmpty) then
      some (mkRat (digitsToNat ip * 10 ^ fp.length + digitsToNat fp) (10 ^ fp.length))
    else none

/-- `TransactionExtractor._parse_amount`: strip commas, `float()`; a
`ValueError` is `none`.  Call sites only pass strings matched by the
numeric regexes, on which this digits-and-dot parser agrees with
`float()`. -/
def parse_amount (amount_str : String) : Option ℚ :=
  pyFloatOfClean (amount_str.data.filter (· ≠ ','))

/-! ## regex_extractor.py: Transaction -/

/-- `Transaction`: the canonical record. -/
structure Transaction where
  date : String
  description : String
  amount : ℚ
  amount_display : String
  type : String
  category : Option String
deriving DecidableEq

/-- `Transaction.__init__`: strips the description, derives the display
string from the amount and the type string from the enum value. -/
def Transaction.make (date description : String) (amount : ℚ)
    (transaction_type : TransactionType) (category : Option String) :
    Transaction :=
  { date := date
    description := pyStrip description
    amount := amount
    amount_display := format_amount_display amount
    type := transaction_type.value
    category := category }

/-! ## regex_extractor.py: TransactionExtractor -/

/-- The in-progress single-line-anchor draft (`self.current_transaction`,
a dict in the source). -/
structure Draft where
  date : String
  description : String
  amount : ℚ
  type : TransactionType
  category : Option String
deriving DecidableEq

/-- The extractor's mutable state. -/
structure ExtState where
  category_state : CategoryState
  transactions : List Transaction
  current_transaction : Option Draft
  pending_date : Option String
  pending_description : List String
  lines_processed : Nat
  category_changes : Nat
  transactions_found : Nat
  multi_line_merges : Nat
deriving DecidableEq

/-- `TransactionExtractor.__init__`. -/
def ExtState.init : ExtState :=
  ⟨CategoryState.init, [], none, none, [], 0, 0, 0, 0⟩

/-- The column headers skipped by `_process_line`. -/
def COLUMN_HEADERS : List String :=
  ["date", "description", "amount", "transaction", "details", "debit", "credit"]

/-- The summary keywords rejecting an anchor description. -/
def SKIP_KEYWORDS : List String :=
  ["total", "balance", "subtotal", "page total", "grand total",
   "ending balance", "beginning balance", "current balance",
   "daily balance", "running balance"]

/-- The stop keywords ending continuation-line accumulation. -/
def STOP_KEYWORDS : List String :=
  ["total", "subtotal", "balance", "account #", "account number",
   "page", "continued", "security", "for information", "for questions",
   "service fees", "interest earned", "deposits", "withdrawals",
   "beginning balance", "ending balance", "daily balance",
   "year-to-date", "previous balance", "new balance",
   "please see", "visit us", "call us", "contact us",
   "business purposes", "check your", "account security"]

/-- `_is_transaction_anchor`: starts with a date and contains an amount. -/
def is_transaction_anchor (line : String) : Bool :=
  (DATE_PATTERN_match line).isSome && AMOUNT_PATTERN_search line

/-- `_is_continuation_line`.  The source calls
`category_state.update_state(line)` here; that call's boolean and its
state mutation depend only on `line`, and on a non-header line it mutates
nothing — and every call site has already returned if the line is a
header — so it is embedded as the pure header test. -/
def is_continuation_line (st : CategoryState) (line : String) : Bool :=
  !(pyStrip line = "") &&
  !(DATE_PATTERN_match line).isSome &&
  !(st.update_state line).2 &&
  !standalone_amount_line line &&
  !(STOP_KEYWORDS.any fun k => strContainsSub (pyLower line) k) &&
  (line.data.any Char.isAlpha) &&
  (match line.data with
   | c :: _ => c.isWhitespace || isWordChar c
   | [] => false)

/-- `_finalize_transaction`: turn the draft into a `Transaction`. -/
def finalize_transaction (s : ExtState) : ExtState :=
  match s.current_transaction with
  | none => s
  | some d =>
    { s with
      transactions :=
        s.transactions ++ [Transaction.make d.date d.description d.amount d.type d.category]
      transactions_found := s.transactions_found + 1
      current_transaction := none }

/-- `_finalize_pending_transaction`: an incomplete stacked draft is only
logged; the pending data is reset. -/
def finalize_pending_transaction (s : ExtState) : ExtState :=
  { s with pending_date := none, pending_description := [] }

/-- The amount-only branch of `_process_line` closing a pending stacked
draft (`pd` is the pending date, `amount_str` the captured token); the
`ValueError` branch resets the pending data. -/
def emit_stacked (year : Nat) (s : ExtState) (pd : String) (amount_str : String) :
    ExtState :=
  match parse_amount amount_str with
  | none => { s with pending_date := none, pending_description := [] }
  | some amount =>
    let description := pyStrip (joinWith " " s.pending_description)
    let description := if description = "" then "[No description]" else description
    let signed_amount := apply_sign_to_amount amount s.category_state.current_state
    let full_date :=
      if (splitOnChar '/' pd).length = 2 then pd ++ "/" ++ toString year else pd
    { s with
      transactions :=
        s.transactions ++
          [Transaction.make full_date description signed_amount
            s.category_state.current_state s.category_state.current_category]
      transactions_found := s.transactions_found + 1
      pending_date := none
      pending_description := [] }

/-- `_parse_transaction_anchor`: on any rejection the state is returned
unchanged (the source's early returns and caught exceptions). -/
def parse_transaction_anchor (s : ExtState) (line : String) : ExtState :=
  match DATE_PATTERN_match line with
  | none => s
  | some date_str =>
    let remaining := pyStrip (strDrop line date_str.length)
    if remaining = "" then s
    else
      match (AMOUNT_PATTERN_finditer remaining).getLast? with
      | none => s
      | some (amount_str, amount_start) =>
        match parse_amount amount_str with
        | none => s
        | some amount =>
          let description := pyStrip (strTake remaining amount_start)
          if description = "" ∨ description.length < 3 then s
          else if SKIP_KEYWORDS.any (fun k => strContainsSub (pyLower description) k) then s
          else
            let signed_amount :=
              apply_sign_to_amount amount s.category_state.current_state
            { s with
              current_transaction := some
                ⟨date_str, description, signed_amount,
                 s.category_state.current_state, s.category_state.current_category⟩ }

/-- `_append_to_description`. -/
def append_to_description (s : ExtState) (line : String) : ExtState :=
  match s.current_transaction with
  | none => s
  | some d =>
    { s with
      current_transaction := some { d with description := d.description ++ " " ++ pyStrip line }
      multi_line_merges := s.multi_line_merges + 1 }

/-- `_process_line`: classify one stripped line and update the state, in
the source's priority order. -/
def process_line (year : Nat) (s : ExtState) (rawLine : String) : ExtState :=
  let line := pyStrip rawLine
  if line = "" then s
  else if pyLower line ∈ COLUMN_HEADERS then s
  else if (s.category_state.update_state line).2 then
    finalize_pending_transaction
      { s with
        category_state := (s.category_state.update_state line).1
        category_changes := s.category_changes + 1 }
  else if !s.category_state.is_valid_state then s
  else if DATE_PATTERN_match line = some line then
    let s1 := finalize_pending_transaction s
    { s1 with pending_date := some line, pending_description := [] }
  else
    match amount_only_match line, s.pending_date with
    | some amount_str, some pd => emit_stacked year s pd amount_str
    | _, _ =>
      if s.pending_date.isSome then
        { s with pending_description := s.pending_description ++ [line] }
      else if is_transaction_anchor line then
        parse_transaction_anchor (finalize_transaction s) line
      else if s.current_transaction.isSome &&
          is_continuation_line s.category_state line then
        append_to_description s line
      else s

/-- One iteration of the extraction loop: the `lines_processed` counter is
bumped in the loop body before `_process_line` runs. -/
def process_line_counted (year : Nat) (s : ExtState) (line : String) : ExtState :=
  process_line year { s with lines_processed := s.lines_processed + 1 } line

/-- `TransactionExtractor.extract_transactions` on a fresh extractor
(`extract_transactions_from_text`).  `datetime.now().year` is the `year`
parameter. -/
def extract_transactions (year : Nat) (text : String) : List Transaction :=
  if pyStrip text = "" then []
  else
    let lines := splitOnChar '\n' text
    let s := lines.foldl (process_line_counted year) ExtState.init
    let s := finalize_transaction s
    let s := finalize_pending_transaction s
    s.transactions

/-! ## financial_validator.py

`datetime.strptime` against the validator's six formats: each format is
digit fields joined by literal separators, so it fully matches iff
splitting on the separator yields the right number of all-digit parts of
the right lengths, with `datetime`'s range checks (month 1–12, day within
the month, year at least 1; `%y` maps 0–68 to 2000s and 69–99 to 1900s;
a format without a year validates days against 1900). -/

/-- Gregorian leap year. -/
def isLeapYear (y : ℕ) : Bool :=
  y % 4 = 0 && (y % 100 ≠ 0 || y % 400 = 0)

/-- Days in a month. -/
def daysInMonth (y m : ℕ) : ℕ :=
  if m = 2 then (if isLeapYear y then 29 else 28)
  else if m = 4 ∨ m = 6 ∨ m = 9 ∨ m = 11 then 30
  else 31

/-- An all-digit field of length 1..maxLen, as a natural. -/
def fieldNat (s : String) (maxLen : ℕ) : Option ℕ :=
  if 1 ≤ s.length ∧ s.length ≤ maxLen ∧ s.data.all Char.isDigit then
    some (digitsToNat s.data)
  else none

/-- A `%m` field: 1–2 digits, value 1..12. -/
def month_field (s : String) : Option ℕ :=
  match fieldNat s 2 with
  | some v => if 1 ≤ v ∧ v ≤ 12 then some v else none
  | none => none

/-- A `%d` field valid in month `m` of year `y`. -/
def day_ok (s : String) (y m : ℕ) : Bool :=
  match fieldNat s 2 with
  | some v => decide (1 ≤ v) && decide (v ≤ daysInMonth y m)
  | none => false

/-- A `%Y` field: exactly 4 digits, year at least 1. -/
def year4_field (s : String) : Option ℕ :=
  if s.length = 4 ∧ s.data.all Char.isDigit then
    let v := digitsToNat s.data
    if 1 ≤ v then some v else none
  else none

/-- A `%y` field: exactly 2 digits, mapped to 2000s (0–68) or 1900s. -/
def year2_field (s : String) : Option ℕ :=
  if s.length = 2 ∧ s.data.all Char.isDigit then
    let v := digitsToNat s.data
    some (if v ≤ 68 then 2000 + v else 1900 + v)
  else none

/-- Month/day/4-digit-year parts match. -/
def fmtMDY (m d y : String) : Bool :=
  match month_field m, year4_field y with
  | some mv, some yv => day_ok d yv mv
  | _, _ => false

/-- Month/day/2-digit-year parts match. -/
def fmtMDy (m d y : String) : Bool :=
  match month_field m, year2_field y with
  | some mv, some yv => day_ok d yv mv
  | _, _ => false

/-- Month/day parts match (year defaults to 1900). -/
def fmtMD (m d : String) : Bool :=
  match month_field m with
  | some mv => day_ok d 1900 mv
  | none => false

/-- 4-digit-year/month/day parts match. -/
def fmtYMD (y m d : String) : Bool :=
  match year4_field y, month_field m with
  | some yv, some mv => day_ok d yv mv
  | _, _ => false

/-- `TransactionValidator._validate_date`. -/
def validate_date (date_str : String) : Bool :=
  (match splitOnChar '/' date_str with
   | [m, d, y] => fmtMDY m d y || fmtMDy m d y
   | [m, d] => fmtMD m d
   | _ => false) ||
  (match splitOnChar '-' date_str with
   | [a, b, c] => fmtMDY a b c || fmtMDy a b c || fmtYMD a b c
   | _ => false)

/-- `TransactionValidator._validate_amount` (no upper bound). -/
def validate_amount (allow_zero_amounts : Bool) (amount : ℚ) : Bool :=
  if amount = 0 then allow_zero_amounts else true

/-- `TransactionValidator._validate_description`. -/
def validate_description (min_description_length : ℕ) (description : String) : Bool :=
  !(pyStrip description = "") && !((pyStrip description).length < min_description_length)

/-- `TransactionValidator._validate_type_and_category`: absence of the
category only logs a warning. -/
def validate_type_and_category (txn_type : String) (category : Option String) : Bool :=
  if txn_type ∉ ["credit", "debit", "unknown"] then false
  else if txn_type = "unknown" then false
  else true

/-- `TransactionValidator.validate_transaction` in the default lenient
mode (strict mode raises instead of returning false; the stats counters
are observational). -/
def validate_transaction (allow_zero_amounts : Bool)
    (min_description_length : ℕ) (t : Transaction) : Bool :=
  validate_date t.date &&
  validate_amount allow_zero_amounts t.amount &&
  validate_description min_description_length t.description &&
  validate_type_and_category t.type t.category

/-- The module-level `validate_transactions` convenience function with the
validator's default settings. -/
def validate_transactions (transactions : List Transaction) : List Transaction :=
  transactions.filter (validate_transaction false 2)

/-! ## main.py: TransactionFilter and TransactionGrouper -/

/-- Python dict lookup on the insertion-ordered association-list model. -/
def dictLookup {α : Type} (d : List (String × α)) (k : String) : Option α :=
  (d.find? (fun p => p.1 == k)).map (·.2)

/-- Python dict assignment `d[k] = v`: overwrite in place, else append. -/
def dictSet {α : Type} (d : List (String × α)) (k : String) (v : α) :
    List (String × α) :=
  if d.any (fun p => p.1 == k) then
    d.map (fun p => if p.1 == k then (p.1, v) else p)
  else d ++ [(k, v)]

/-- `d[k].append(t)` for a key already present. -/
def dictAppendAt (d : List (String × List Transaction)) (k : String)
    (t : Transaction) : List (String × List Transaction) :=
  d.map (fun p => if p.1 == k then (p.1, p.2 ++ [t]) else p)

/-- `defaultdict(list)`-style `d[k].append(t)`. -/
def dictAppendList (d : List (String × List Transaction)) (k : String)
    (t : Transaction) : List (String × List Transaction) :=
  if d.any (fun p => p.1 == k) then dictAppendAt d k t
  else d ++ [(k, [t])]

/-- The keyword scan of `filter_by_keywords`: the first keyword whose
lowered text is a substring of the lowered description. -/
def first_matching_keyword (keywords : List String) (t : Transaction) :
    Option String :=
  keywords.find? (fun k => strContainsSub (pyLower t.description) (pyLower k))

/-- One step of the transaction loop in `filter_by_keywords`, carrying
(results, matched_indices). -/
def fbk_step (keywords : List String)
    (acc : List (String × List Transaction) × List Nat)
    (it : Nat × Transaction) : List (String × List Transaction) × List Nat :=
  match first_matching_keyword keywords it.2 with
  | some k => (dictAppendAt acc.1 k it.2, acc.2 ++ [it.1])
  | none => acc

/-- `TransactionFilter.filter_by_keywords`. -/
def filter_by_keywords (transactions : List Transaction)
    (keywords : List String) : List (String × List Transaction) :=
  if keywords.isEmpty then [("All", transactions)]
  else
    let init := keywords.foldl (fun d k => dictSet d k []) []
    let res := transactions.enum.foldl (fbk_step keywords) (init, [])
    let unmatched :=
      (transactions.enum.filter (fun it => !res.2.contains it.1)).map Prod.snd
    if unmatched.isEmpty then res.1 else dictSet res.1 "Unmatched" unmatched

/-- Python `int(s)`: optional surrounding whitespace, optional sign, at
least one digit (digit-group underscores cannot occur at its call site);
a `ValueError` is `none`. -/
def pyIntOpt (s : String) : Option ℤ :=
  let cs := s.data.dropWhile Char.isWhitespace
  let cs := (cs.reverse.dropWhile Char.isWhitespace).reverse
  match cs with
  | '+' :: t =>
    if !t.isEmpty && t.all Char.isDigit then some (digitsToNat t) else none
  | '-' :: t =>
    if !t.isEmpty && t.all Char.isDigit then some (-(digitsToNat t : ℤ)) else none
  | t =>
    if !t.isEmpty && t.all Char.isDigit then some (digitsToNat t) else none

/-- Python `s.zfill(2)`. -/
def pyZfill2 (s : String) : String :=
  if 2 ≤ s.length then s
  else
    match s.data with
    | [] => "00"
    | [c] => if c = '+' ∨ c = '-' then ⟨[c, '0']⟩ else ⟨['0', c]⟩
    | _ => s

/-- The part handling of `TransactionFilter._extract_month` after a
separator split; a `ValueError` from `int(year)` lands in the `except`
branch returning `None`. -/
def extract_month_parts (year : ℕ) (parts : List String) : Option String :=
  match parts with
  | [month, _day, yr] =>
    if yr.length = 2 then
      match pyIntOpt yr with
      | none => none
      | some yi =>
        let yr4 := if yi ≤ 49 then "20" ++ yr else "19" ++ yr
        some (yr4 ++ "-" ++ pyZfill2 month)
    else some (yr ++ "-" ++ pyZfill2 month)
  | [month, _day] => some (toString year ++ "-" ++ pyZfill2 month)
  | _ => none

/-- `TransactionFilter._extract_month` (`datetime.now().year` is the
`year` parameter). -/
def extract_month (year : ℕ) (date_str : String) : Option String :=
  if date_str.data.contains '/' then
    extract_month_parts year (splitOnChar '/' date_str)
  else if date_str.data.contains '-' && !listStartsWith "20".data date_str.data then
    extract_month_parts year (splitOnChar '-' date_str)
  else if date_str.data.contains '-' then some (strTake date_str 7)
  else none

/-- `TransactionFilter.filter_by_date_range` (the `if txn_month` guard is
Python truthiness, so an empty month string is also dropped). -/
def filter_by_date_range (year : ℕ) (transactions : List Transaction)
    (start_month end_month : String) : List Transaction :=
  if start_month = "" ∨ end_month = "" then transactions
  else
    transactions.filter (fun t =>
      match extract_month year t.date with
      | some m => !(m = "") && pyStrLe start_month m && pyStrLe m end_month
      | none => false)

/-- `TransactionGrouper.group_by_month`. -/
def group_by_month (year : ℕ) (transactions : List Transaction) :
    List (String × List Transaction) :=
  transactions.foldl
    (fun grouped t =>
      match extract_month year t.date with
      | some m => if m = "" then grouped else dictAppendList grouped m t
      | none => grouped)
    []

/-- The per-month type split of `group_by_bank_month_type`: the
`deposits` and `withdrawals` keys are only added when non-empty. -/
def month_type_split (month_txns : List Transaction) :
    List (String × List Transaction) :=
  let deposits := month_txns.filter (fun t => t.type == "credit")
  let withdrawals := month_txns.filter (fun t => t.type == "debit")
  (if !deposits.isEmpty then [("deposits", deposits)] else []) ++
    (if !withdrawals.isEmpty then [("withdrawals", withdrawals)] else [])

/-- `TransactionGrouper.group_by_bank_month_type`. -/
def group_by_bank_month_type (year : ℕ)
    (transactions_by_bank : List (String × List Transaction)) :
    List (String × List (String × List (String × List Transaction))) :=
  transactions_by_bank.foldl
    (fun result p =>
      if p.2.isEmpty then result
      else
        let months := group_by_month year p.2
        let bank_data := months.foldl
          (fun bd mp =>
            let month_data := month_type_split mp.2
            if month_data.isEmpty then bd else bd ++ [(mp.1, month_data)])
          []
        if bank_data.isEmpty then result else result ++ [(p.1, bank_data)])
    []

/-! ## Verification-layer definitions -/

/-- Python dict-comprehension key dedup: first occurrence wins; `seen`
accumulates keys already emitted. -/
def pyDedupAux : List String → List String → List String
  | [], _ => []
  | k :: t, seen =>
    if k ∈ seen then pyDedupAux t seen else k :: pyDedupAux t (k :: seen)

/-- The keys of `{k: [] for k in l}` in order. -/
def pyDedup (l : List String) : List String :=
  pyDedupAux l []

/-- The invariant of every transaction the extractor emits: resolved type
string, non-empty category label, and sign agreeing with the type. -/
def TxnOK (t : Transaction) : Prop :=
  (t.type = "credit" ∨ t.type = "debit") ∧
  (∃ c, t.category = some c ∧ c ≠ "") ∧
  (t.type = "credit" → 0 ≤ t.amount) ∧
  (t.type = "debit" → t.amount ≤ 0)

/-- The same invariant on an in-progress anchor draft. -/
def DraftOK (d : Draft) : Prop :=
  d.type ≠ TransactionType.UNKNOWN ∧
  (∃ c, d.category = some c ∧ c ≠ "") ∧
  (d.type = TransactionType.CREDIT → 0 ≤ d.amount) ∧
  (d.type = TransactionType.DEBIT → d.amount ≤ 0)

/-- The extractor-state invariant: a resolved polarity always carries a
non-empty category label, and all emitted transactions and the current
draft satisfy the transaction invariant. -/
def ExtInv (s : ExtState) : Prop :=
  (s.category_state.current_state ≠ TransactionType.UNKNOWN →
    ∃ c, s.category_state.current_category = some c ∧ c ≠ "") ∧
  (∀ t ∈ s.transactions, TxnOK t) ∧
  (∀ d, s.current_transaction = some d → DraftOK d)

/-! ## Theorems -/

/-- The two header sets are disjoint. -/
theorem headers_disjoint {x : String} (hc : x ∈ CREDIT_HEADERS)
    (hd : x ∈ DEBIT_HEADERS) : False := by
  fin_cases hc <;> revert hd <;> decide

/-- C4: For every line whose trimmed, lower-cased form is a member of the
fixed credit-header (resp. debit-header) set, `update_state` sets the
polarity to credit (resp. debit), records the trimmed original line as the
category label, appends to the history, and returns true; for every other
line it returns false and leaves polarity, category label and history
unchanged. -/
theorem c4_update_state_spec (st : CategoryState) (line : String) :
    (pyLower (pyStrip line) ∈ CREDIT_HEADERS →
      st.update_state line =
        (⟨TransactionType.CREDIT, some (pyStrip line),
          st.state_history ++ [("CREDIT", pyStrip line)]⟩, true)) ∧
    (pyLower (pyStrip line) ∈ DEBIT_HEADERS →
      st.update_state line =
        (⟨TransactionType.DEBIT, some (pyStrip line),
          st.state_history ++ [("DEBIT", pyStrip line)]⟩, true)) ∧
    (pyLower (pyStrip line) ∉ CREDIT_HEADERS →
      pyLower (pyStrip line) ∉ DEBIT_HEADERS →
      st.update_state line = (st, false)) := by
  refine ⟨fun h => ?_, fun h => ?_, fun h1 h2 => ?_⟩
  · simp only [CategoryState.update_state]
    rw [if_pos h]
  · have hnc : pyLower (pyStrip line) ∉ CREDIT_HEADERS :=
      fun hc => headers_disjoint hc h
    simp only [CategoryState.update_state]
    rw [if_neg hnc, if_pos h]
  · simp only [CategoryState.update_state]
    rw [if_neg h1, if_neg h2]

/-- C4 witness: both "  DEPOSITS  " and "deposits" set credit polarity. -/
theorem c4_update_state_spec_witness :
    CategoryState.init.update_state "  DEPOSITS  " =
      (⟨TransactionType.CREDIT, some "DEPOSITS", [("CREDIT", "DEPOSITS")]⟩, true) ∧
    CategoryState.init.update_state "deposits" =
      (⟨TransactionType.CREDIT, some "deposits", [("CREDIT", "deposits")]⟩, true) :=
  ⟨((c4_update_state_spec CategoryState.init "  DEPOSITS  ").1 (by decide)).trans
      (by decide),
   ((c4_update_state_spec CategoryState.init "deposits").1 (by decide)).trans
      (by decide)⟩

/-- Two-digit rendering has length two below 100. -/
theorem two_digit_str_len : ∀ d : ℕ, d < 100 → (two_digit_str d).length = 2 := by
  decide

/-- On an exact multiple of a cent, the half-even cent rounding is exact. -/
theorem centsHalfEven_exact (a : ℚ) (k : ℤ) (hk : a * 100 = (k : ℚ)) :
    centsHalfEven a = k := by
  have hden0 : (a.den : ℚ) ≠ 0 := by
    exact_mod_cast a.den_nz
  have hnum : a.num * 100 = k * (a.den : ℤ) := by
    have h1 : (a.num : ℚ) / (a.den : ℚ) * 100 = (k : ℚ) := by
      rw [Rat.num_div_den a]; exact hk
    have h2 : (a.num : ℚ) * 100 = (k : ℚ) * (a.den : ℚ) := by
      field_simp at h1
      linarith
    exact_mod_cast h2
  have hdpos : (0 : ℤ) < (a.den : ℤ) := by exact_mod_cast a.pos
  simp only [centsHalfEven, hnum]
  rw [Int.mul_fdiv_cancel k (ne_of_gt hdpos)]
  have hr : k * (a.den : ℤ) - k * (a.den : ℤ) = 0 := by ring
  rw [hr]
  rw [if_pos (by simpa using hdpos)]

/-- C8: `format_display` produces a string beginning with '+' when the
amount is nonnegative and with '-' otherwise, with exactly two fractional
digits, and parsing the numeric portion and reapplying the leading sign
reproduces the amount (stated for amounts exact to the cent, which is what
"to the cent" round-tripping means). -/
theorem c8_format_round_trip (a : ℚ) (h : ∃ k : ℤ, a * 100 = (k : ℚ)) :
    ∃ n d : ℕ, d < 100 ∧ (two_digit_str d).length = 2 ∧
      format_amount_display a =
        (if 0 ≤ a then "+" else "-") ++ (toString n ++ "." ++ two_digit_str d) ∧
      (if 0 ≤ a then (1 : ℚ) else -1) * ((n : ℚ) + (d : ℚ) / 100) = a := by
  obtain ⟨k, hk⟩ := h
  have hval : a = (k : ℚ) / 100 := by
    field_simp [← hk]
  by_cases ha : 0 ≤ a
  · have hk0 : 0 ≤ k := by
      have : (0 : ℚ) ≤ (k : ℚ) := by rw [← hk]; positivity
      exact_mod_cast this
    refine ⟨k.toNat / 100, k.toNat % 100, Nat.mod_lt _ (by norm_num),
      two_digit_str_len _ (Nat.mod_lt _ (by norm_num)), ?_, ?_⟩
    · have hc := centsHalfEven_exact a k hk
      simp only [format_amount_display, fixed2, if_pos ha, hc]
    · rw [if_pos ha, one_mul]
      have hsplit : ((k.toNat / 100 : ℕ) : ℚ) + ((k.toNat % 100 : ℕ) : ℚ) / 100 =
          ((k.toNat : ℕ) : ℚ) / 100 := by
        have h1 : ((k.toNat : ℕ) : ℚ) =
            ((k.toNat / 100 : ℕ) : ℚ) * 100 + ((k.toNat % 100 : ℕ) : ℚ) := by
          have h0 : k.toNat / 100 * 100 + k.toNat % 100 = k.toNat := by omega
          exact_mod_cast h0.symm
        rw [h1]
        ring
      have hcast : ((k.toNat : ℕ) : ℚ) = (k : ℚ) := by
        exact_mod_cast congrArg (fun z : ℤ => (z : ℚ)) (Int.toNat_of_nonneg hk0)
      rw [hsplit, hcast, hval]
  · have hlt : a < 0 := lt_of_not_le ha
    have hk0 : 0 ≤ -k := by
      have : (k : ℚ) < 0 := by
        rw [← hk]
        have : a * 100 < 0 := by nlinarith
        exact this
      have hkneg : k < 0 := by exact_mod_cast this
      omega
    have hneg : -a * 100 = ((-k : ℤ) : ℚ) := by push_cast; linarith [hk]
    refine ⟨(-k).toNat / 100, (-k).toNat % 100, Nat.mod_lt _ (by norm_num),
      two_digit_str_len _ (Nat.mod_lt _ (by norm_num)), ?_, ?_⟩
    · have hc := centsHalfEven_exact (-a) (-k) hneg
      simp only [format_amount_display, fixed2, if_neg ha, hc]
    · rw [if_neg ha]
      have hsplit : (((-k).toNat / 100 : ℕ) : ℚ) + (((-k).toNat % 100 : ℕ) : ℚ) / 100 =
          (((-k).toNat : ℕ) : ℚ) / 100 := by
        have h1 : (((-k).toNat : ℕ) : ℚ) =
            (((-k).toNat / 100 : ℕ) : ℚ) * 100 + (((-k).toNat % 100 : ℕ) : ℚ) := by
          have h0 : (-k).toNat / 100 * 100 + (-k).toNat % 100 = (-k).toNat := by omega
          exact_mod_cast h0.symm
        rw [h1]
        ring
      have hcast : (((-k).toNat : ℕ) : ℚ) = ((-k : ℤ) : ℚ) := by
        exact_mod_cast congrArg (fun z : ℤ => (z : ℚ)) (Int.toNat_of_nonneg hk0)
      rw [hsplit, hcast, hval]
      push_cast
      ring

/-- C8 witness at the amount -54.23. -/
theorem c8_format_round_trip_witness :
    ∃ n d : ℕ, d < 100 ∧ (two_digit_str d).length = 2 ∧
      format_amount_display (-(5423 / 100 : ℚ)) =
        (if 0 ≤ (-(5423 / 100 : ℚ)) then "+" else "-") ++
          (toString n ++ "." ++ two_digit_str d) ∧
      (if 0 ≤ (-(5423 / 100 : ℚ)) then (1 : ℚ) else -1) *
          ((n : ℚ) + (d : ℚ) / 100) = -(5423 / 100 : ℚ) :=
  c8_format_round_trip _ ⟨-5423, by norm_num⟩

/-- Anchor parsing never touches the emitted-transactions list. -/
theorem parse_anchor_transactions (s : ExtState) (line : String) :
    (parse_transaction_anchor s line).transactions = s.transactions := by
  unfold parse_transaction_anchor
  repeat' first | rfl | dsimp only | split

/-- Finalizing the draft only appends to the emitted list. -/
theorem finalize_transaction_transactions (s : ExtState) :
    ∃ tail, (finalize_transaction s).transactions = s.transactions ++ tail := by
  unfold finalize_transaction
  split
  · exact ⟨[], by simp⟩
  · exact ⟨_, rfl⟩

/-- Closing a stacked draft only appends to the emitted list. -/
theorem emit_stacked_transactions (year : ℕ) (s : ExtState) (pd astr : String) :
    ∃ tail, (emit_stacked year s pd astr).transactions = s.transactions ++ tail := by
  unfold emit_stacked
  split
  · exact ⟨[], by simp⟩
  · exact ⟨_, rfl⟩

/-- Description continuation never touches the emitted list. -/
theorem append_to_description_transactions (s : ExtState) (line : String) :
    (append_to_description s line).transactions = s.transactions := by
  unfold append_to_description
  split <;> rfl

/-- Processing one line only ever appends to the emitted list (every
failure path is a handled branch returning the state). -/
theorem process_line_transactions_aux (year : ℕ) (s : ExtState) (line : String) :
    (process_line year s line).transactions =
      s.transactions ++
        ((process_line year s line).transactions.drop s.transactions.length) := by
  unfold process_line
  dsimp only
  repeat' split
  all_goals first
    | simp [finalize_pending_transaction]
    | (obtain ⟨t, h⟩ := emit_stacked_transactions year s _ _
       rw [h, List.drop_left])
    | (rw [parse_anchor_transactions]
       obtain ⟨t, h⟩ := finalize_transaction_transactions s
       rw [h, List.drop_left])
    | (rw [append_to_description_transactions]
       simp)

/-- C9: extraction is total and loss-free line by line: empty or
whitespace-only input yields an empty transaction list, and processing any
single line (however malformed — all failure paths are handled branches)
leaves the previously emitted transactions as a prefix and continues, so a
bad line can never abort the scan or discard earlier results. -/
theorem c9_extraction_total (year : ℕ) (text : String) (s : ExtState)
    (line : String) :
    (pyStrip text = "" → extract_transactions year text = []) ∧
    ∃ tail, (process_line year s line).transactions = s.transactions ++ tail := by
  constructor
  · intro h
    unfold extract_transactions
    rw [if_pos h]
  · exact ⟨_, process_line_transactions_aux year s line⟩

/-- C9 witness: whitespace-only input and a garbage line. -/
theorem c9_extraction_total_witness :
    extract_transactions 2026 " \n  " = [] ∧
    ∃ tail, (process_line 2026 ExtState.init "@@ ** garbage").transactions =
      ExtState.init.transactions ++ tail :=
  ⟨(c9_extraction_total 2026 " \n  " ExtState.init "@@ ** garbage").1 (by decide),
   (c9_extraction_total 2026 " \n  " ExtState.init "@@ ** garbage").2⟩

/-- A fold whose step preserves a pointwise list property preserves it. -/
theorem foldl_preserves {α β : Type} {f : List α → β → List α} {P : α → Prop}
    (hstep : ∀ acc b, (∀ x ∈ acc, P x) → ∀ x ∈ f acc b, P x) :
    ∀ (l : List β) (init : List α), (∀ x ∈ init, P x) →
      ∀ x ∈ List.foldl f init l, P x := by
  intro l
  induction l with
  | nil => intro init h x hx; exact h x (by simpa using hx)
  | cons b t ih =>
    intro init h x hx
    rw [List.foldl_cons] at hx
    exact ih _ (hstep _ _ h) x hx

/-- Each entry of a per-month type split carries a non-empty list. -/
theorem month_type_split_nonempty (l : List Transaction) :
    ∀ kp ∈ month_type_split l, kp.2 ≠ [] := by
  intro kp hkp
  unfold month_type_split at hkp
  rcases List.mem_append.mp hkp with h | h <;> split at h <;> simp_all

/-- C7: every month entry of `group_by_bank_month_type` holds at least one
transaction in its deposits or withdrawals sub-list, and every bank entry
holds at least one month: the result never contains an empty month or an
empty bank entry. -/
theorem c7_group_nonempty (year : ℕ)
    (transactions_by_bank : List (String × List Transaction)) :
    ∀ p ∈ group_by_bank_month_type year transactions_by_bank,
      p.2 ≠ [] ∧ ∀ mp ∈ p.2, mp.2 ≠ [] ∧ ∀ kp ∈ mp.2, kp.2 ≠ [] := by
  unfold group_by_bank_month_type
  refine foldl_preserves ?_ _ _ (by simp)
  intro acc b hacc x hx
  split at hx
  · exact hacc x hx
  · dsimp only at hx
    split at hx
    · exact hacc x hx
    · next hbd =>
      rcases List.mem_append.mp hx with h | h
      · exact hacc x h
      · have hx2 := List.mem_singleton.mp h
        subst hx2
        refine ⟨by simpa using hbd, ?_⟩
        refine foldl_preserves ?_ _ _ (by simp)
        intro bd mp hbd' y hy
        try dsimp only at hy
        split at hy
        · exact hbd' y hy
        · next hmd =>
          rcases List.mem_append.mp hy with h2 | h2
          · exact hbd' y h2
          · have hy2 := List.mem_singleton.mp h2
            subst hy2
            exact ⟨by simpa using hmd, month_type_split_nonempty _⟩

/-- C7 witness at a one-bank input. -/
theorem c7_group_nonempty_witness :
    (("Chase", [("2026-03",
        [("deposits", [(⟨"03/14/2026", "VENDOR PAYMENT", mkRat 1 1, "+1.00",
          "credit", some "Deposits"⟩ : Transaction)])])]) :
        String × List (String × List (String × List Transaction))).2 ≠ [] ∧
    ∀ mp ∈ (("Chase", [("2026-03",
        [("deposits", [(⟨"03/14/2026", "VENDOR PAYMENT", mkRat 1 1, "+1.00",
          "credit", some "Deposits"⟩ : Transaction)])])]) :
        String × List (String × List (String × List Transaction))).2,
      mp.2 ≠ [] ∧ ∀ kp ∈ mp.2, kp.2 ≠ [] :=
  c7_group_nonempty 2026
    [("Chase", [⟨"03/14/2026", "VENDOR PAYMENT", mkRat 1 1, "+1.00",
      "credit", some "Deposits"⟩])]
    ("Chase", [("2026-03",
      [("deposits", [⟨"03/14/2026", "VENDOR PAYMENT", mkRat 1 1, "+1.00",
        "credit", some "Deposits"⟩])])])
    (by decide)

/-- C2: anchor parsing takes the last token matching the amount grammar as
the transaction amount and the text between the date and that token's
position as the description; on the concrete header-plus-anchor input the
one emitted transaction has amount -54.23, type "debit", and description
"CHECK CARD PURCHASE STORE #4521" with the trailing 1200.11 excluded
(1200.11, with four integer digits and no comma grouping, does not even
match the amount grammar). -/
theorem c2_anchor_last_amount :
    (∀ (s : ExtState) (line date_str remaining amount_str : String)
        (amount_start : Nat) (amount : ℚ) (description : String),
      DATE_PATTERN_match line = some date_str →
      remaining = pyStrip (strDrop line date_str.length) →
      remaining ≠ "" →
      (AMOUNT_PATTERN_finditer remaining).getLast? = some (amount_str, amount_start) →
      parse_amount amount_str = some amount →
      description = pyStrip (strTake remaining amount_start) →
      ¬(description = "" ∨ description.length < 3) →
      (SKIP_KEYWORDS.any fun k => strContainsSub (pyLower description) k) = false →
      parse_transaction_anchor s line =
        { s with current_transaction := some ⟨date_str, description,
            apply_sign_to_amount amount s.category_state.current_state,
            s.category_state.current_state, s.category_state.current_category⟩ }) ∧
    (∀ year, extract_transactions year
        "Electronic Withdrawals\n03/14/2026 CHECK CARD PURCHASE STORE #4521 54.23 1200.11" =
      [⟨"03/14/2026", "CHECK CARD PURCHASE STORE #4521", -(5423 / 100 : ℚ),
        "-54.23", "debit", some "Electronic Withdrawals"⟩]) := by
  constructor
  · intro s line date_str remaining amount_str amount_start amount description
      hd hrem hne hm ha hdesc h3 hsk
    subst hrem
    subst hdesc
    unfold parse_transaction_anchor
    simp only [hd]
    rw [if_neg hne]
    simp only [hm, ha, hsk]
    rw [if_neg h3]
    simp only [Bool.false_eq_true, if_false]
  · intro year
    have hmk : -(mkRat 5423 100) = -(5423 / 100 : ℚ) := by
      norm_num [Rat.mkRat_eq_div]
    rw [← hmk]
    have e0 : splitOnChar '\n'
        "Electronic Withdrawals\n03/14/2026 CHECK CARD PURCHASE STORE #4521 54.23 1200.11" =
        ["Electronic Withdrawals",
         "03/14/2026 CHECK CARD PURCHASE STORE #4521 54.23 1200.11"] := by decide
    have h1 : process_line_counted year ExtState.init "Electronic Withdrawals" =
        ⟨⟨TransactionType.DEBIT, some "Electronic Withdrawals",
          [("DEBIT", "Electronic Withdrawals")]⟩, [], none, none, [], 1, 1, 0, 0⟩ := rfl
    have h2 : process_line_counted year
        (⟨⟨TransactionType.DEBIT, some "Electronic Withdrawals",
          [("DEBIT", "Electronic Withdrawals")]⟩, [], none, none, [], 1, 1, 0, 0⟩ : ExtState)
        "03/14/2026 CHECK CARD PURCHASE STORE #4521 54.23 1200.11" =
        ⟨⟨TransactionType.DEBIT, some "Electronic Withdrawals",
          [("DEBIT", "Electronic Withdrawals")]⟩, [],
         some ⟨"03/14/2026", "CHECK CARD PURCHASE STORE #4521", -(mkRat 5423 100),
           TransactionType.DEBIT, some "Electronic Withdrawals"⟩,
         none, [], 2, 1, 0, 0⟩ := rfl
    rw [extract_transactions, if_neg (by decide), e0]
    simp only [List.foldl_cons, List.foldl_nil, h1, h2]
    rfl

/-- C2 witness: the general anchor property instantiated on the concrete
anchor line in a debit state. -/
theorem c2_anchor_last_amount_witness :
    parse_transaction_anchor
      ⟨⟨TransactionType.DEBIT, some "Electronic Withdrawals",
        [("DEBIT", "Electronic Withdrawals")]⟩, [], none, none, [], 2, 1, 0, 0⟩
      "03/14/2026 CHECK CARD PURCHASE STORE #4521 54.23 1200.11" =
    { (⟨⟨TransactionType.DEBIT, some "Electronic Withdrawals",
        [("DEBIT", "Electronic Withdrawals")]⟩, [], none, none, [], 2, 1, 0, 0⟩ : ExtState)
      with current_transaction := some ⟨"03/14/2026",
        "CHECK CARD PURCHASE STORE #4521",
        apply_sign_to_amount (mkRat 5423 100) TransactionType.DEBIT,
        TransactionType.DEBIT, some "Electronic Withdrawals"⟩ } :=
  c2_anchor_last_amount.1
    ⟨⟨TransactionType.DEBIT, some "Electronic Withdrawals",
      [("DEBIT", "Electronic Withdrawals")]⟩, [], none, none, [], 2, 1, 0, 0⟩
    "03/14/2026 CHECK CARD PURCHASE STORE #4521 54.23 1200.11"
    "03/14/2026" "CHECK CARD PURCHASE STORE #4521 54.23 1200.11" "54.23" 32
    (mkRat 5423 100) "CHECK CARD PURCHASE STORE #4521"
    (by decide) (by decide) (by decide) (by decide) (by decide) (by decide)
    (by decide) (by decide)

/-- C3: a header, a stand-alone date line, description lines and a
stand-alone amount line reconstruct exactly one credit transaction whose
description joins the description lines with single spaces (placeholder
when there are none) and whose date gets the current calendar year
appended. -/
theorem c3_stacked_reconstruction (year : ℕ) :
    extract_transactions year
        "Deposits and Additions\n04/02\nACH CREDIT PAYROLL\nACME CORP\n1,600.00" =
      [⟨"04/02/" ++ toString year, "ACH CREDIT PAYROLL ACME CORP", (1600 : ℚ),
        "+1600.00", "credit", some "Deposits and Additions"⟩] ∧
    extract_transactions year "Deposits and Additions\n04/02\n1,600.00" =
      [⟨"04/02/" ++ toString year, "[No description]", (1600 : ℚ),
        "+1600.00", "credit", some "Deposits and Additions"⟩] := by
  constructor
  · have e0 : splitOnChar '\n'
        "Deposits and Additions\n04/02\nACH CREDIT PAYROLL\nACME CORP\n1,600.00" =
        ["Deposits and Additions", "04/02", "ACH CREDIT PAYROLL", "ACME CORP",
         "1,600.00"] := by decide
    have h1 : process_line_counted year ExtState.init "Deposits and Additions" =
        ⟨⟨TransactionType.CREDIT, some "Deposits and Additions",
          [("CREDIT", "Deposits and Additions")]⟩, [], none, none, [], 1, 1, 0, 0⟩ := rfl
    have h2 : process_line_counted year
        (⟨⟨TransactionType.CREDIT, some "Deposits and Additions",
          [("CREDIT", "Deposits and Additions")]⟩, [], none, none, [], 1, 1, 0, 0⟩ : ExtState)
        "04/02" =
        ⟨⟨TransactionType.CREDIT, some "Deposits and Additions",
          [("CREDIT", "Deposits and Additions")]⟩, [], none, some "04/02", [],
         2, 1, 0, 0⟩ := rfl
    have h3 : process_line_counted year
        (⟨⟨TransactionType.CREDIT, some "Deposits and Additions",
          [("CREDIT", "Deposits and Additions")]⟩, [], none, some "04/02", [],
         2, 1, 0, 0⟩ : ExtState) "ACH CREDIT PAYROLL" =
        ⟨⟨TransactionType.CREDIT, some "Deposits and Additions",
          [("CREDIT", "Deposits and Additions")]⟩, [], none, some "04/02",
         ["ACH CREDIT PAYROLL"], 3, 1, 0, 0⟩ := rfl
    have h4 : process_line_counted year
        (⟨⟨TransactionType.CREDIT, some "Deposits and Additions",
          [("CREDIT", "Deposits and Additions")]⟩, [], none, some "04/02",
         ["ACH CREDIT PAYROLL"], 3, 1, 0, 0⟩ : ExtState) "ACME CORP" =
        ⟨⟨TransactionType.CREDIT, some "Deposits and Additions",
          [("CREDIT", "Deposits and Additions")]⟩, [], none, some "04/02",
         ["ACH CREDIT PAYROLL", "ACME CORP"], 4, 1, 0, 0⟩ := rfl
    have h5 : process_line_counted year
        (⟨⟨TransactionType.CREDIT, some "Deposits and Additions",
          [("CREDIT", "Deposits and Additions")]⟩, [], none, some "04/02",
         ["ACH CREDIT PAYROLL", "ACME CORP"], 4, 1, 0, 0⟩ : ExtState) "1,600.00" =
        ⟨⟨TransactionType.CREDIT, some "Deposits and Additions",
          [("CREDIT", "Deposits and Additions")]⟩,
         [⟨"04/02/" ++ toString year, "ACH CREDIT PAYROLL ACME CORP", (1600 : ℚ),
           "+1600.00", "credit", some "Deposits and Additions"⟩],
         none, none, [], 5, 1, 1, 0⟩ := rfl
    rw [extract_transactions, if_neg (by decide), e0]
    simp only [List.foldl_cons, List.foldl_nil, h1, h2, h3, h4, h5]
    rfl
  · have e0 : splitOnChar '\n' "Deposits and Additions\n04/02\n1,600.00" =
        ["Deposits and Additions", "04/02", "1,600.00"] := by decide
    have h1 : process_line_counted year ExtState.init "Deposits and Additions" =
        ⟨⟨TransactionType.CREDIT, some "Deposits and Additions",
          [("CREDIT", "Deposits and Additions")]⟩, [], none, none, [], 1, 1, 0, 0⟩ := rfl
    have h2 : process_line_counted year
        (⟨⟨TransactionType.CREDIT, some "Deposits and Additions",
          [("CREDIT", "Deposits and Additions")]⟩, [], none, none, [], 1, 1, 0, 0⟩ : ExtState)
        "04/02" =
        ⟨⟨TransactionType.CREDIT, some "Deposits and Additions",
          [("CREDIT", "Deposits and Additions")]⟩, [], none, some "04/02", [],
         2, 1, 0, 0⟩ := rfl
    have h3 : process_line_counted year
        (⟨⟨TransactionType.CREDIT, some "Deposits and Additions",
          [("CREDIT", "Deposits and Additions")]⟩, [], none, some "04/02", [],
         2, 1, 0, 0⟩ : ExtState) "1,600.00" =
        ⟨⟨TransactionType.CREDIT, some "Deposits and Additions",
          [("CREDIT", "Deposits and Additions")]⟩,
         [⟨"04/02/" ++ toString year, "[No description]", (1600 : ℚ),
           "+1600.00", "credit", some "Deposits and Additions"⟩],
         none, none, [], 3, 1, 1, 0⟩ := rfl
    rw [extract_transactions, if_neg (by decide), e0]
    simp only [List.foldl_cons, List.foldl_nil, h1, h2, h3]
    rfl

/-- The string append of the embedding concatenates the char lists. -/
theorem strAppend_data (a b : String) : (a ++ b).data = a.data ++ b.data := by
  cases a
  cases b
  rfl

/-- `extract_month` never returns the empty string. -/
theorem extract_month_parts_ne_empty (year : ℕ) (parts : List String)
    (m : String) (h : extract_month_parts year parts = some m) : m ≠ "" := by
  unfold extract_month_parts at h
  have habne : ∀ (a b : String), a ++ "-" ++ b ≠ "" := by
    intro a b hab
    have := congrArg String.data hab
    rw [strAppend_data, strAppend_data] at this
    simp at this
  split at h
  · split at h
    · split at h
      · exact absurd h (by simp)
      · simp only [Option.some.injEq] at h
        subst h
        apply habne
    · simp only [Option.some.injEq] at h
      subst h
      apply habne
  · simp only [Option.some.injEq] at h
    subst h
    apply habne
  · exact absurd h (by simp)

/-- `extract_month` never returns the empty string. -/
theorem extract_month_ne_empty (year : ℕ) (ds m : String)
    (h : extract_month year ds = some m) : m ≠ "" := by
  unfold extract_month at h
  split at h
  · exact extract_month_parts_ne_empty _ _ _ h
  · split at h
    · exact extract_month_parts_ne_empty _ _ _ h
    · split at h
      · simp only [Option.some.injEq] at h
        subst h
        rcases hd : ds.data with _ | ⟨c, t⟩
        · simp_all
        · intro htake
          have hdata := congrArg String.data htake
          simp only [strTake, hd] at hdata
          simp at hdata
      · exact absurd h (by simp)

/-- C6: with non-empty bounds, `filter_by_date_range` keeps a transaction
iff the canonical YYYY-MM month derived from its date lies lexicographically
between the bounds inclusive; two-digit years 00-49 map to 20xx (26 to
2026) and 50-99 to 19xx (76 to 1976), a bare MM/DD takes the current
calendar year, and with bounds 2026-01..2026-03 the transaction dated
02/10/26 is retained while the one dated 01/05/2025 is excluded. -/
theorem c6_date_range_spec (year : ℕ) (transactions : List Transaction)
    (start_month end_month : String)
    (hs : start_month ≠ "") (he : end_month ≠ "") :
    (∀ t, t ∈ filter_by_date_range year transactions start_month end_month ↔
      t ∈ transactions ∧ ∃ m, extract_month year t.date = some m ∧
        pyStrLe start_month m = true ∧ pyStrLe m end_month = true) ∧
    extract_month year "02/10/26" = some "2026-02" ∧
    extract_month year "01/05/2025" = some "2025-01" ∧
    extract_month year "02/10/76" = some "1976-02" ∧
    extract_month year "04/02" = some (toString year ++ "-" ++ "04") ∧
    (∀ (t1 t2 : Transaction), t1.date = "02/10/26" → t2.date = "01/05/2025" →
      filter_by_date_range year [t1, t2] "2026-01" "2026-03" = [t1]) := by
  refine ⟨?_, rfl, rfl, rfl, rfl, ?_⟩
  · intro t
    unfold filter_by_date_range
    rw [if_neg (by simp [hs, he])]
    rw [List.mem_filter]
    constructor
    · rintro ⟨ht, hp⟩
      refine ⟨ht, ?_⟩
      rcases hm : extract_month year t.date with _ | m
      · rw [hm] at hp
        simp at hp
      · rw [hm] at hp
        simp only [Bool.and_eq_true, Bool.not_eq_true'] at hp
        exact ⟨m, rfl, hp.1.2, hp.2⟩
    · rintro ⟨ht, m, hm, h1, h2⟩
      refine ⟨ht, ?_⟩
      rw [hm]
      have hne := extract_month_ne_empty year t.date m hm
      simp only [Bool.and_eq_true, Bool.not_eq_true']
      refine ⟨⟨?_, h1⟩, h2⟩
      simp [hne]
  · intro t1 t2 h1 h2
    unfold filter_by_date_range
    rw [if_neg (by simp)]
    simp only [List.filter_cons, List.filter_nil, h1, h2]
    rfl

/-- C6 witness at concrete transactions and range 2026-01..2026-03. -/
theorem c6_date_range_spec_witness :
    ((⟨"02/10/26", "COFFEE SHOP", mkRat 314 100, "+3.14", "credit",
        some "Deposits"⟩ : Transaction) ∈
      filter_by_date_range 2026
        [⟨"02/10/26", "COFFEE SHOP", mkRat 314 100, "+3.14", "credit",
          some "Deposits"⟩,
         ⟨"01/05/2025", "OLD PAYMENT", mkRat 200 100, "+2.00", "credit",
          some "Deposits"⟩]
        "2026-01" "2026-03" ↔
      (⟨"02/10/26", "COFFEE SHOP", mkRat 314 100, "+3.14", "credit",
        some "Deposits"⟩ : Transaction) ∈
        [(⟨"02/10/26", "COFFEE SHOP", mkRat 314 100, "+3.14", "credit",
          some "Deposits"⟩ : Transaction),
         ⟨"01/05/2025", "OLD PAYMENT", mkRat 200 100, "+2.00", "credit",
          some "Deposits"⟩] ∧
      ∃ m, extract_month 2026 "02/10/26" = some m ∧
        pyStrLe "2026-01" m = true ∧ pyStrLe m "2026-03" = true) :=
  (c6_date_range_spec 2026
    [⟨"02/10/26", "COFFEE SHOP", mkRat 314 100, "+3.14", "credit",
      some "Deposits"⟩,
     ⟨"01/05/2025", "OLD PAYMENT", mkRat 200 100, "+2.00", "credit",
      some "Deposits"⟩]
    "2026-01" "2026-03" (by decide) (by decide)).1
    ⟨"02/10/26", "COFFEE SHOP", mkRat 314 100, "+3.14", "credit",
      some "Deposits"⟩

/-- A line recognized as a header never has an empty trimmed form. -/
theorem header_strip_ne_empty (line : String)
    (h : pyLower (pyStrip line) ∈ CREDIT_HEADERS ∨
      pyLower (pyStrip line) ∈ DEBIT_HEADERS) :
    pyStrip line ≠ "" := by
  intro he
  rw [he] at h
  revert h
  decide

/-- After a successful `update_state` the polarity is resolved and the
category label is a non-empty string. -/
theorem update_state_true (st : CategoryState) (line : String)
    (h : (st.update_state line).2 = true) :
    (st.update_state line).1.current_state ≠ TransactionType.UNKNOWN ∧
    ∃ c, (st.update_state line).1.current_category = some c ∧ c ≠ "" := by
  by_cases h1 : pyLower (pyStrip line) ∈ CREDIT_HEADERS
  · simp only [CategoryState.update_state, if_pos h1]
    exact ⟨by decide, pyStrip line, rfl, header_strip_ne_empty line (Or.inl h1)⟩
  · by_cases h2 : pyLower (pyStrip line) ∈ DEBIT_HEADERS
    · simp only [CategoryState.update_state, if_neg h1, if_pos h2]
      exact ⟨by decide, pyStrip line, rfl, header_strip_ne_empty line (Or.inr h2)⟩
    · exfalso
      simp only [CategoryState.update_state, if_neg h1, if_neg h2] at h
      exact absurd h (by simp)

/-- The applied sign of a credit is nonnegative. -/
theorem apply_sign_credit_nonneg (a : ℚ) :
    0 ≤ apply_sign_to_amount a TransactionType.CREDIT := by
  simp [apply_sign_to_amount]

/-- The applied sign of a debit is nonpositive. -/
theorem apply_sign_debit_nonpos (a : ℚ) :
    apply_sign_to_amount a TransactionType.DEBIT ≤ 0 := by
  simp only [apply_sign_to_amount]
  exact neg_nonpos.mpr (abs_nonneg a)

/-- A transaction built by the constructor from a resolved type, a
non-empty category, and a correctly-signed amount satisfies the
transaction invariant. -/
theorem make_txn_ok (date descr : String) (a : ℚ) (ty : TransactionType)
    (cat : Option String) (hty : ty ≠ TransactionType.UNKNOWN)
    (hcat : ∃ c, cat = some c ∧ c ≠ "")
    (hc : ty = TransactionType.CREDIT → 0 ≤ a)
    (hd : ty = TransactionType.DEBIT → a ≤ 0) :
    TxnOK (Transaction.make date descr a ty cat) := by
  cases ty with
  | CREDIT =>
    refine ⟨Or.inl rfl, hcat, fun _ => hc rfl, fun h => ?_⟩
    simp [Transaction.make, TransactionType.value] at h
  | DEBIT =>
    refine ⟨Or.inr rfl, hcat, fun h => ?_, fun _ => hd rfl⟩
    simp [Transaction.make, TransactionType.value] at h
  | UNKNOWN => exact absurd rfl hty

/-- Finalizing a well-formed draft yields a well-formed transaction. -/
theorem draft_ok_make (d : Draft) (h : DraftOK d) :
    TxnOK (Transaction.make d.date d.description d.amount d.type d.category) :=
  make_txn_ok _ _ _ _ _ h.1 h.2.1 h.2.2.1 h.2.2.2

/-- `finalize_transaction` preserves the extractor invariant. -/
theorem inv_finalize_transaction (s : ExtState) (h : ExtInv s) :
    ExtInv (finalize_transaction s) := by
  unfold finalize_transaction
  split
  · exact h
  · next d hd =>
    obtain ⟨h1, h2, h3⟩ := h
    refine ⟨h1, ?_, by simp⟩
    intro t ht
    rcases List.mem_append.mp ht with h4 | h4
    · exact h2 t h4
    · have h5 := List.mem_singleton.mp h4
      subst h5
      exact draft_ok_make d (h3 d hd)

/-- `finalize_transaction` never changes the category state. -/
theorem finalize_transaction_category_state (s : ExtState) :
    (finalize_transaction s).category_state = s.category_state := by
  unfold finalize_transaction
  split <;> rfl

/-- `emit_stacked` preserves the extractor invariant when the polarity is
resolved. -/
theorem inv_emit_stacked (year : ℕ) (s : ExtState) (pd astr : String)
    (hvalid : s.category_state.current_state ≠ TransactionType.UNKNOWN)
    (h : ExtInv s) : ExtInv (emit_stacked year s pd astr) := by
  unfold emit_stacked
  split
  · exact h
  · obtain ⟨h1, h2, h3⟩ := h
    refine ⟨h1, ?_, h3⟩
    intro t ht
    rcases List.mem_append.mp ht with h4 | h4
    · exact h2 t h4
    · have h5 := List.mem_singleton.mp h4
      subst h5
      refine make_txn_ok _ _ _ _ _ hvalid (h1 hvalid) ?_ ?_
      · intro hc; rw [hc]; exact apply_sign_credit_nonneg _
      · intro hd; rw [hd]; exact apply_sign_debit_nonpos _

/-- `parse_transaction_anchor` preserves the extractor invariant when the
polarity is resolved. -/
theorem inv_parse_anchor (s : ExtState) (line : String)
    (hvalid : s.category_state.current_state ≠ TransactionType.UNKNOWN)
    (h : ExtInv s) : ExtInv (parse_transaction_anchor s line) := by
  unfold parse_transaction_anchor
  repeat' first | exact h | dsimp only | split
  obtain ⟨h1, h2, h3⟩ := h
  refine ⟨h1, h2, ?_⟩
  intro d hd
  simp only [Option.some.injEq] at hd
  subst hd
  refine ⟨hvalid, h1 hvalid, ?_, ?_⟩
  · intro hc
    show 0 ≤ apply_sign_to_amount _ s.category_state.current_state
    have hc2 : s.category_state.current_state = TransactionType.CREDIT := hc
    rw [hc2]
    exact apply_sign_credit_nonneg _
  · intro hd2
    show apply_sign_to_amount _ s.category_state.current_state ≤ 0
    have hd3 : s.category_state.current_state = TransactionType.DEBIT := hd2
    rw [hd3]
    exact apply_sign_debit_nonpos _

/-- `append_to_description` preserves the extractor invariant. -/
theorem inv_append_desc (s : ExtState) (line : String) (h : ExtInv s) :
    ExtInv (append_to_description s line) := by
  unfold append_to_description
  split
  · exact h
  · next d hd =>
    obtain ⟨h1, h2, h3⟩ := h
    refine ⟨h1, h2, ?_⟩
    intro d' hd'
    simp only [Option.some.injEq] at hd'
    subst hd'
    exact h3 d hd

/-- `process_line` preserves the extractor invariant. -/
theorem inv_process_line (year : ℕ) (s : ExtState) (line : String)
    (h : ExtInv s) : ExtInv (process_line year s line) := by
  unfold process_line
  dsimp only
  split
  · exact h
  · split
    · exact h
    · split
      · next hupd =>
        have hu := update_state_true s.category_state (pyStrip line) hupd
        exact ⟨fun _ => hu.2, h.2.1, h.2.2⟩
      · split
        · exact h
        · next hv =>
          have hvalid : s.category_state.current_state ≠ TransactionType.UNKNOWN := by
            have hb : s.category_state.is_valid_state = true := by
              revert hv
              cases s.category_state.is_valid_state <;> simp
            unfold CategoryState.is_valid_state at hb
            exact of_decide_eq_true hb
          split
          · exact h
          · split
            · exact inv_emit_stacked year s _ _ hvalid h
            · split
              · exact h
              · split
                · refine inv_parse_anchor _ _ ?_ (inv_finalize_transaction s h)
                  rw [finalize_transaction_category_state]
                  exact hvalid
                · split
                  · exact inv_append_desc s _ h
                  · exact h

/-- Every transaction the extractor emits satisfies the invariant. -/
theorem extract_inv (year : ℕ) (text : String) :
    ∀ t ∈ extract_transactions year text, TxnOK t := by
  unfold extract_transactions
  split
  · simp
  · intro t ht
    have hfold : ∀ (lines : List String) (s : ExtState), ExtInv s →
        ExtInv (List.foldl (process_line_counted year) s lines) := by
      intro lines
      induction lines with
      | nil => intro s hs; exact hs
      | cons l tl ih =>
        intro s hs
        rw [List.foldl_cons]
        exact ih _ (inv_process_line year _ l hs)
    have hinv := hfold (splitOnChar '\n' text) ExtState.init
      ⟨fun hne => absurd rfl hne, by simp [ExtState.init], by simp [ExtState.init]⟩
    exact (inv_finalize_transaction _ hinv).2.1 t ht

/-- C10: every transaction the extractor emits (before any validation) has
type "credit" or "debit" — never "unknown" — and a non-empty category
label. -/
theorem c10_emitted_type_category (year : ℕ) (text : String) :
    ∀ t ∈ extract_transactions year text,
      (t.type = "credit" ∨ t.type = "debit") ∧ t.type ≠ "unknown" ∧
      ∃ c, t.category = some c ∧ c ≠ "" := by
  intro t ht
  have h := extract_inv year text t ht
  refine ⟨h.1, ?_, h.2.1⟩
  rcases h.1 with h1 | h1 <;> rw [h1] <;> decide

/-- C10 witness on a concrete stacked reconstruction. -/
theorem c10_emitted_type_category_witness :
    (((⟨"04/02/2026", "[No description]", (1600 : ℚ), "+1600.00", "credit",
        some "Deposits and Additions"⟩ : Transaction)).type = "credit" ∨
      ((⟨"04/02/2026", "[No description]", (1600 : ℚ), "+1600.00", "credit",
        some "Deposits and Additions"⟩ : Transaction)).type = "debit") ∧
    ((⟨"04/02/2026", "[No description]", (1600 : ℚ), "+1600.00", "credit",
        some "Deposits and Additions"⟩ : Transaction)).type ≠ "unknown" ∧
    ∃ c, ((⟨"04/02/2026", "[No description]", (1600 : ℚ), "+1600.00", "credit",
        some "Deposits and Additions"⟩ : Transaction)).category = some c ∧
      c ≠ "" :=
  c10_emitted_type_category 2026 "Deposits and Additions\n04/02\n1,600.00"
    ⟨"04/02/2026", "[No description]", (1600 : ℚ), "+1600.00", "credit",
      some "Deposits and Additions"⟩ (by decide)

/-- C1: for every extracted transaction that survives validation, the
amount is nonnegative iff the type is "credit" and negative iff the type
is "debit"; and no transaction with type "unknown" is ever kept by
validation. -/
theorem c1_sign_type_invariant (year : ℕ) (text : String) (t : Transaction)
    (ht : t ∈ extract_transactions year text)
    (hv : validate_transaction false 2 t = true) :
    ((0 ≤ t.amount ↔ t.type = "credit") ∧
     (t.amount < 0 ↔ t.type = "debit")) ∧
    ∀ u : Transaction, u.type = "unknown" →
      validate_transaction false 2 u = false := by
  have hok := extract_inv year text t ht
  have hamt : t.amount ≠ 0 := by
    have hva : validate_amount false t.amount = true := by
      simp only [validate_transaction, Bool.and_eq_true] at hv
      exact hv.1.1.2
    unfold validate_amount at hva
    intro h0
    rw [if_pos h0] at hva
    exact absurd hva (by simp)
  refine ⟨⟨⟨?_, ?_⟩, ⟨?_, ?_⟩⟩, ?_⟩
  · intro hge
    rcases hok.1 with h1 | h1
    · exact h1
    · exact absurd (le_antisymm (hok.2.2.2 h1) hge) hamt
  · intro hc
    exact hok.2.2.1 hc
  · intro hlt
    rcases hok.1 with h1 | h1
    · exact absurd hlt (not_lt.mpr (hok.2.2.1 h1))
    · exact h1
  · intro hd
    exact lt_of_le_of_ne (hok.2.2.2 hd) hamt
  · intro u hu
    have hfalse : validate_type_and_category "unknown" u.category = false := rfl
    simp [validate_transaction, hu, hfalse]

/-- C1 witness on the concrete debit extraction. -/
theorem c1_sign_type_invariant_witness :
    ((0 ≤ ((⟨"03/14/2026", "CHECK CARD PURCHASE STORE #4521",
        -(mkRat 5423 100), "-54.23", "debit",
        some "Electronic Withdrawals"⟩ : Transaction)).amount ↔
      ((⟨"03/14/2026", "CHECK CARD PURCHASE STORE #4521",
        -(mkRat 5423 100), "-54.23", "debit",
        some "Electronic Withdrawals"⟩ : Transaction)).type = "credit") ∧
     (((⟨"03/14/2026", "CHECK CARD PURCHASE STORE #4521",
        -(mkRat 5423 100), "-54.23", "debit",
        some "Electronic Withdrawals"⟩ : Transaction)).amount < 0 ↔
      ((⟨"03/14/2026", "CHECK CARD PURCHASE STORE #4521",
        -(mkRat 5423 100), "-54.23", "debit",
        some "Electronic Withdrawals"⟩ : Transaction)).type = "debit")) ∧
    ∀ u : Transaction, u.type = "unknown" →
      validate_transaction false 2 u = false :=
  c1_sign_type_invariant 2026
    "Electronic Withdrawals\n03/14/2026 CHECK CARD PURCHASE STORE #4521 54.23 1200.11"
    ⟨"03/14/2026", "CHECK CARD PURCHASE STORE #4521", -(mkRat 5423 100),
      "-54.23", "debit", some "Electronic Withdrawals"⟩
    (by decide) (by decide)

/-! Association-list lemmas for the Python-dict model. -/

/-- Cons unfolding of `dictLookup`. -/
theorem dictLookup_cons (p : String × List Transaction)
    (d : List (String × List Transaction)) (k : String) :
    dictLookup (p :: d) k = if p.1 = k then some p.2 else dictLookup d k := by
  unfold dictLookup
  by_cases h : p.1 = k
  · rw [List.find?_cons_of_pos _ (by simpa using h), if_pos h]
    rfl
  · rw [List.find?_cons_of_neg _ (by simpa using h), if_neg h]

/-- Key presence as a Bool `any`. -/
theorem any_key_iff (d : List (String × List Transaction)) (k : String) :
    (d.any fun p => p.1 == k) = true ↔ k ∈ d.map Prod.fst := by
  simp only [List.any_eq_true, List.mem_map, beq_iff_eq]

/-- Lookup after a keyed append. -/
theorem dictLookup_appendAt (d : List (String × List Transaction))
    (k0 k : String) (t : Transaction) :
    dictLookup (dictAppendAt d k0 t) k =
      if k = k0 then (dictLookup d k).map (fun b => b ++ [t])
      else dictLookup d k := by
  induction d with
  | nil => split <;> rfl
  | cons p ds ih =>
    by_cases h0 : p.1 = k0
    · have hshape : dictAppendAt (p :: ds) k0 t =
          (p.1, p.2 ++ [t]) :: dictAppendAt ds k0 t := by
        simp [dictAppendAt, h0]
      rw [hshape, dictLookup_cons, dictLookup_cons]
      by_cases hk : p.1 = k
      · have hkk0 : k = k0 := by rw [← hk]; exact h0
        rw [if_pos hk, if_pos hk, if_pos hkk0]
        simp
      · have hkk0 : ¬k = k0 := fun he => hk (by rw [h0, ← he])
        rw [if_neg hk, if_neg hk, if_neg hkk0, ih, if_neg hkk0]
    · have hshape : dictAppendAt (p :: ds) k0 t = p :: dictAppendAt ds k0 t := by
        simp [dictAppendAt, h0]
      rw [hshape, dictLookup_cons, dictLookup_cons]
      by_cases hk : p.1 = k
      · have hkk0 : ¬k = k0 := fun he => h0 (by rw [hk, he])
        rw [if_pos hk, if_pos hk, if_neg hkk0]
      · rw [if_neg hk, if_neg hk, ih]

/-- A keyed append does not change the key sequence. -/
theorem dictAppendAt_keys (d : List (String × List Transaction))
    (k : String) (t : Transaction) :
    (dictAppendAt d k t).map Prod.fst = d.map Prod.fst := by
  induction d with
  | nil => rfl
  | cons p ds ih =>
    have hshape : dictAppendAt (p :: ds) k t =
        (if p.1 == k then (p.1, p.2 ++ [t]) else p) :: dictAppendAt ds k t := rfl
    rw [hshape, List.map_cons, List.map_cons, ih]
    congr 1
    split <;> rfl

/-- The mapped-replacement form of `dictSet` on a present key. -/
theorem dictSet_map_lookup (d : List (String × List Transaction))
    (k k' : String) (v : List Transaction) :
    dictLookup (d.map fun p => if p.1 == k then (p.1, v) else p) k' =
      if k' = k then (if k ∈ d.map Prod.fst then some v else none)
      else dictLookup d k' := by
  induction d with
  | nil => simp only [List.map_nil]; split <;> simp [dictLookup]
  | cons p ds ih =>
    rw [List.map_cons]
    by_cases h0 : p.1 = k
    · rw [show (if (p.1 == k) = true then (p.1, v) else p) = (p.1, v) by simp [h0]]
      rw [dictLookup_cons, dictLookup_cons]
      by_cases hk : p.1 = k'
      · have hkk : k' = k := by rw [← hk]; exact h0
        rw [if_pos hk, if_pos hkk, if_pos (by simp [h0])]
      · have hkk : ¬k' = k := fun he => hk (by rw [h0, ← he])
        rw [if_neg hk, if_neg hk, ih]
        simp [hkk]
    · rw [show (if (p.1 == k) = true then (p.1, v) else p) = p by simp [h0]]
      rw [dictLookup_cons]
      by_cases hk : p.1 = k'
      · have hkk : ¬k' = k := fun he => h0 (by rw [hk, he])
        rw [if_pos hk, if_neg hkk, dictLookup_cons, if_pos hk]
      · rw [if_neg hk, ih, dictLookup_cons, if_neg hk]
        by_cases hkk : k' = k
        · rw [if_pos hkk, if_pos hkk]
          have hiff : k ∈ List.map Prod.fst (p :: ds) ↔ k ∈ List.map Prod.fst ds := by
            rw [List.map_cons, List.mem_cons]
            constructor
            · rintro (he | hm2)
              · exact absurd he.symm h0
              · exact hm2
            · exact Or.inr
          by_cases hm : k ∈ List.map Prod.fst ds
          · rw [if_pos hm, if_pos (hiff.mpr hm)]
          · rw [if_neg hm, if_neg (fun hc => hm (hiff.mp hc))]
        · rw [if_neg hkk, if_neg hkk]

/-- Lookup after a dict assignment. -/
theorem dictLookup_dictSet (d : List (String × List Transaction))
    (k k' : String) (v : List Transaction) :
    dictLookup (dictSet d k v) k' = if k' = k then some v else dictLookup d k' := by
  unfold dictSet
  split
  · next hany =>
    rw [dictSet_map_lookup]
    by_cases hkk : k' = k
    · rw [if_pos hkk, if_pos hkk, if_pos ((any_key_iff d k).mp hany)]
    · rw [if_neg hkk, if_neg hkk]
  · next hany =>
    induction d with
    | nil =>
      rw [List.nil_append, dictLookup_cons]
      by_cases hkk : k' = k
      · rw [if_pos (by rw [hkk]), if_pos hkk]
      · rw [if_neg (fun he => hkk he.symm), if_neg hkk]
    | cons p ds ih =>
      rw [List.cons_append, dictLookup_cons, dictLookup_cons]
      by_cases hk : p.1 = k'
      · have hkk : ¬k' = k := by
          intro he
          apply hany
          exact List.any_eq_true.mpr ⟨p, List.mem_cons_self _ _, by simp [hk, he]⟩
        rw [if_neg hkk, if_pos hk, if_pos hk]
      · rw [if_neg hk, if_neg hk]
        apply ih
        intro hds
        apply hany
        rcases List.any_eq_true.mp hds with ⟨q, hq, hqk⟩
        exact List.any_eq_true.mpr ⟨q, List.mem_cons_of_mem _ hq, hqk⟩

/-- Key sequence after a dict assignment. -/
theorem dictSet_keys (d : List (String × List Transaction)) (k : String)
    (v : List Transaction) :
    (dictSet d k v).map Prod.fst =
      if k ∈ d.map Prod.fst then d.map Prod.fst else d.map Prod.fst ++ [k] := by
  unfold dictSet
  by_cases hany : (d.any fun p => p.1 == k) = true
  · rw [if_pos hany, if_pos ((any_key_iff d k).mp hany)]
    rw [List.map_map]
    apply List.map_congr_left
    intro p _
    by_cases h : p.1 = k
    · simp [h]
    · simp [h]
  · rw [if_neg hany, if_neg (fun hm => hany ((any_key_iff d k).mpr hm))]
    simp

/-- Lookup in a dict whose values are all empty lists. -/
theorem dictLookup_all_nil (d : List (String × List Transaction)) (k : String)
    (h : ∀ p ∈ d, p.2 = []) :
    dictLookup d k = if k ∈ d.map Prod.fst then some [] else none := by
  induction d with
  | nil => rfl
  | cons p ds ih =>
    rw [dictLookup_cons, List.map_cons]
    by_cases hk : p.1 = k
    · rw [if_pos hk, if_pos (by simp [hk]), h p (List.mem_cons_self _ _)]
    · rw [if_neg hk, ih (fun q hq => h q (List.mem_cons_of_mem _ hq))]
      by_cases hm : k ∈ ds.map Prod.fst
      · rw [if_pos hm, if_pos (List.mem_cons_of_mem _ hm)]
      · rw [if_neg hm, if_neg ?_]
        intro hc
        rcases List.mem_cons.mp hc with hc | hc
        · exact hk hc.symm
        · exact hm hc

/-- `pyDedupAux` only depends on the membership of `seen`. -/
theorem pyDedupAux_congr (l : List String) :
    ∀ s1 s2 : List String, (∀ x, x ∈ s1 ↔ x ∈ s2) →
      pyDedupAux l s1 = pyDedupAux l s2 := by
  induction l with
  | nil => intro s1 s2 _; rfl
  | cons k t ih =>
    intro s1 s2 hs
    unfold pyDedupAux
    by_cases h : k ∈ s1
    · rw [if_pos h, if_pos ((hs k).mp h), ih s1 s2 hs]
    · rw [if_neg h, if_neg (fun hc => h ((hs k).mpr hc))]
      rw [ih (k :: s1) (k :: s2) (by intro x; simp [hs x])]

/-- Elements of the dedup come from the original list. -/
theorem pyDedupAux_sub (l : List String) :
    ∀ (seen : List String) (x : String), x ∈ pyDedupAux l seen → x ∈ l := by
  induction l with
  | nil => intro seen x hx; exact absurd hx (by simp [pyDedupAux])
  | cons k t ih =>
    intro seen x hx
    unfold pyDedupAux at hx
    split at hx
    · exact List.mem_cons_of_mem _ (ih seen x hx)
    · rcases List.mem_cons.mp hx with h | h
      · exact h ▸ List.mem_cons_self _ _
      · exact List.mem_cons_of_mem _ (ih (k :: seen) x h)

/-- The dict-comprehension initialisation: keys are the deduped keywords,
all values are empty, and lookup reflects membership. -/
theorem init_spec (ks : List String) :
    ∀ d : List (String × List Transaction), (∀ p ∈ d, p.2 = []) →
      ((ks.foldl (fun d k => dictSet d k []) d).map Prod.fst =
        d.map Prod.fst ++ pyDedupAux ks (d.map Prod.fst)) ∧
      (∀ p ∈ ks.foldl (fun d k => dictSet d k []) d, p.2 = []) := by
  induction ks with
  | nil => intro d hd; exact ⟨by simp [pyDedupAux], hd⟩
  | cons k0 t ih =>
    intro d hd
    rw [List.foldl_cons]
    have hvals : ∀ p ∈ dictSet d k0 [], p.2 = ([] : List Transaction) := by
      intro p hp
      unfold dictSet at hp
      split at hp
      · rcases List.mem_map.mp hp with ⟨q, hq, hqe⟩
        subst hqe
        split
        · rfl
        · exact hd q hq
      · rcases List.mem_append.mp hp with h | h
        · exact hd p h
        · rw [List.mem_singleton.mp h]
    obtain ⟨ihk, ihv⟩ := ih (dictSet d k0 []) hvals
    refine ⟨?_, ihv⟩
    have hped : pyDedupAux (k0 :: t) (d.map Prod.fst) =
        if k0 ∈ d.map Prod.fst then pyDedupAux t (d.map Prod.fst)
        else k0 :: pyDedupAux t (k0 :: d.map Prod.fst) := rfl
    rw [ihk, dictSet_keys, hped]
    by_cases hm : k0 ∈ d.map Prod.fst
    · rw [if_pos hm, if_pos hm]
    · rw [if_neg hm, if_neg hm, List.append_assoc, List.singleton_append]
      congr 2
      apply pyDedupAux_congr
      intro x
      simp [or_comm]

/-- The main keyword loop: bucket contents, matched indices, and keys. -/
theorem fbk_loop (keywords : List String) (ts : List Transaction) :
    ∀ (n : ℕ) (d : List (String × List Transaction)) (mi : List ℕ),
      (∀ k, dictLookup ((List.enumFrom n ts).foldl (fbk_step keywords) (d, mi)).1 k =
        (dictLookup d k).map (fun b =>
          b ++ ts.filter (fun t => first_matching_keyword keywords t = some k))) ∧
      ((List.enumFrom n ts).foldl (fbk_step keywords) (d, mi)).2 =
        mi ++ ((List.enumFrom n ts).filter
          (fun it => (first_matching_keyword keywords it.2).isSome)).map Prod.fst ∧
      ((List.enumFrom n ts).foldl (fbk_step keywords) (d, mi)).1.map Prod.fst =
        d.map Prod.fst := by
  induction ts with
  | nil =>
    intro n d mi
    refine ⟨fun k => ?_, by simp, rfl⟩
    simp [List.filter_nil]
  | cons t ts ih =>
    intro n d mi
    have hshape : List.enumFrom n (t :: ts) = (n, t) :: List.enumFrom (n + 1) ts := rfl
    rw [hshape, List.foldl_cons]
    rcases hfm : first_matching_keyword keywords t with _ | k0
    · have hstep : fbk_step keywords (d, mi) (n, t) = (d, mi) := by
        unfold fbk_step
        rw [hfm]
      rw [hstep]
      obtain ⟨ih1, ih2, ih3⟩ := ih (n + 1) d mi
      refine ⟨fun k => ?_, ?_, ih3⟩
      · rw [ih1 k]
        congr 2
        rw [List.filter_cons]
        simp [hfm]
      · rw [ih2]
        rw [List.filter_cons]
        simp [hfm]
    · have hstep : fbk_step keywords (d, mi) (n, t) =
          (dictAppendAt d k0 t, mi ++ [n]) := by
        unfold fbk_step
        rw [hfm]
      rw [hstep]
      obtain ⟨ih1, ih2, ih3⟩ := ih (n + 1) (dictAppendAt d k0 t) (mi ++ [n])
      refine ⟨fun k => ?_, ?_, by rw [ih3, dictAppendAt_keys]⟩
      · rw [ih1 k, dictLookup_appendAt]
        by_cases hk : k = k0
        · rw [if_pos hk, Option.map_map]
          rw [List.filter_cons]
          have : (decide (first_matching_keyword keywords t = some k)) = true := by
            simp [hfm, hk]
          rw [if_pos this]
          rcases dictLookup d k with _ | b
          · rfl
          · simp
        · rw [if_neg hk]
          congr 2
          rw [List.filter_cons]
          have : (decide (first_matching_keyword keywords t = some k)) = false := by
            simp [hfm]
            exact fun he => hk he.symm
          rw [this]
          simp
      · rw [ih2, List.filter_cons]
        have : (fun it => (first_matching_keyword keywords it.2).isSome) ((n, t)) = true := by
          simp [hfm]
        rw [if_pos this]
        simp

/-- Membership of an index in the matched-indices list agrees with the
match status of the entry at that index. -/
theorem matched_contains (keywords : List String) (ts : List Transaction) :
    ∀ it ∈ ts.enum,
      (((ts.enum.filter (fun it2 =>
          (first_matching_keyword keywords it2.2).isSome)).map Prod.fst).contains it.1) =
        (first_matching_keyword keywords it.2).isSome := by
  intro it hit
  have hnd : (ts.enum.map Prod.fst).Nodup := by
    rw [List.enum_map_fst]; exact List.nodup_range _
  cases hsome : (first_matching_keyword keywords it.2).isSome with
  | false =>
    apply Bool.eq_false_iff.mpr
    intro hc
    rw [List.elem_iff] at hc
    rcases List.mem_map.mp hc with ⟨it2, hit2, hfst⟩
    rcases List.mem_filter.mp hit2 with ⟨hmem, hp⟩
    have heq : it2 = it := List.inj_on_of_nodup_map hnd hmem hit hfst
    subst heq
    rw [hsome] at hp
    exact absurd hp (by simp)
  | true =>
    exact List.elem_iff.mpr
      (List.mem_map.mpr ⟨it, List.mem_filter.mpr ⟨hit, hsome⟩, rfl⟩)

/-- The unmatched collection equals the no-first-match filter. -/
theorem unmatched_eq (keywords : List String) (ts : List Transaction) :
    ((ts.enum.filter (fun it =>
        !(((ts.enum.filter (fun it2 =>
            (first_matching_keyword keywords it2.2).isSome)).map Prod.fst).contains
          it.1))).map Prod.snd) =
      ts.filter (fun t => first_matching_keyword keywords t = none) := by
  rw [List.filter_congr (fun it hit => by
    rw [matched_contains keywords ts it hit])]
  conv_rhs => rw [← List.enum_map_snd ts]
  rw [List.filter_map]
  congr 1
  apply List.filter_congr
  intro x _
  show (!(first_matching_keyword keywords x.2).isSome) =
    decide (first_matching_keyword keywords x.2 = none)
  cases first_matching_keyword keywords x.2 <;> rfl

/-- A list element not yet seen survives the dedup. -/
theorem pyDedupAux_mem (l : List String) :
    ∀ (seen : List String) (x : String), x ∈ l → x ∉ seen →
      x ∈ pyDedupAux l seen := by
  induction l with
  | nil => intro seen x hx _; exact absurd hx (by simp)
  | cons k t ih =>
    intro seen x hx hseen
    unfold pyDedupAux
    rcases List.mem_cons.mp hx with he | hm
    · subst he
      rw [if_neg hseen]
      exact List.mem_cons_self _ _
    · by_cases hk : k ∈ seen
      · rw [if_pos hk]; exact ih seen x hm hseen
      · rw [if_neg hk]
        by_cases hxk : x = k
        · subst hxk; exact List.mem_cons_self _ _
        · refine List.mem_cons_of_mem _ (ih (k :: seen) x hm ?_)
          intro hc
          rcases List.mem_cons.mp hc with h | h
          · exact hxk h
          · exact hseen h

/-- C5: `filter_by_keywords` assigns each transaction to the bucket of the
first keyword (in order) occurring case-insensitively in its description:
the bucket of each keyword `k` is exactly the in-order sub-list of
transactions whose first match is `k`, transactions matching no keyword
form exactly the "Unmatched" bucket (present only when non-empty), and the
bucket keys are the deduplicated keywords plus at most "Unmatched" — so
every transaction lands in exactly one bucket, in input order. -/
theorem c5_filter_by_keywords_spec (transactions : List Transaction)
    (keywords : List String) (hne : keywords ≠ [])
    (hu : "Unmatched" ∉ keywords) :
    (∀ k ∈ keywords,
      dictLookup (filter_by_keywords transactions keywords) k =
        some (transactions.filter
          (fun t => first_matching_keyword keywords t = some k))) ∧
    dictLookup (filter_by_keywords transactions keywords) "Unmatched" =
      (if transactions.filter
            (fun t => first_matching_keyword keywords t = none) = [] then none
       else some (transactions.filter
            (fun t => first_matching_keyword keywords t = none))) ∧
    (filter_by_keywords transactions keywords).map Prod.fst =
      pyDedup keywords ++
        (if transactions.filter
              (fun t => first_matching_keyword keywords t = none) = [] then []
         else ["Unmatched"]) := by
  have hinit_spec := init_spec keywords
    ([] : List (String × List Transaction)) (by simp)
  have hinit_keys :
      (keywords.foldl (fun d k => dictSet d k ([] : List Transaction)) []).map Prod.fst =
        pyDedup keywords := by
    have h := hinit_spec.1
    simpa [pyDedup] using h
  have hinit_lookup : ∀ k,
      dictLookup (keywords.foldl (fun d k => dictSet d k ([] : List Transaction)) []) k =
        if k ∈ pyDedup keywords then some [] else none := by
    intro k
    rw [dictLookup_all_nil _ k hinit_spec.2, hinit_keys]
  obtain ⟨hl1, hl2, hl3⟩ := fbk_loop keywords transactions 0
    (keywords.foldl (fun d k => dictSet d k ([] : List Transaction)) []) []
  have hud : "Unmatched" ∉ pyDedup keywords := fun hc =>
    hu (pyDedupAux_sub keywords [] _ hc)
  have hunm :
      (((List.enumFrom 0 transactions).filter (fun it =>
        !((List.foldl (fbk_step keywords)
            (keywords.foldl (fun d k => dictSet d k ([] : List Transaction)) [], [])
            (List.enumFrom 0 transactions)).2.contains
          it.1))).map Prod.snd) =
      transactions.filter (fun t => first_matching_keyword keywords t = none) := by
    have hl2' : (List.foldl (fbk_step keywords)
        (keywords.foldl (fun d k => dictSet d k ([] : List Transaction)) [], [])
        (List.enumFrom 0 transactions)).2 =
        ((List.enumFrom 0 transactions).filter (fun it =>
          (first_matching_keyword keywords it.2).isSome)).map Prod.fst := by
      rw [hl2, List.nil_append]
    rw [hl2']
    exact unmatched_eq keywords transactions
  unfold filter_by_keywords
  rw [if_neg (by simpa [List.isEmpty_iff] using hne)]
  dsimp only
  rw [show transactions.enum = List.enumFrom 0 transactions from rfl, hunm]
  by_cases hemp : transactions.filter
      (fun t => first_matching_keyword keywords t = none) = []
  · rw [if_pos (by simp [hemp])]
    refine ⟨?_, ?_, ?_⟩
    · intro k hk
      rw [hl1 k, hinit_lookup k,
        if_pos (show k ∈ pyDedup keywords from
          pyDedupAux_mem keywords [] k hk (by simp))]
      simp
    · rw [hl1 "Unmatched", hinit_lookup "Unmatched", if_neg hud, if_pos hemp]
      rfl
    · rw [hl3, hinit_keys, if_pos hemp]
      simp
  · rw [if_neg (by simpa [List.isEmpty_iff] using hemp)]
    refine ⟨?_, ?_, ?_⟩
    · intro k hk
      rw [dictLookup_dictSet,
        if_neg (fun he : k = "Unmatched" => hu (he ▸ hk)), hl1 k,
        hinit_lookup k, if_pos (show k ∈ pyDedup keywords from
          pyDedupAux_mem keywords [] k hk (by simp))]
      simp
    · rw [dictLookup_dictSet, if_pos rfl, if_neg hemp]
    · rw [dictSet_keys, hl3, hinit_keys, if_neg hud, if_neg hemp]

/-- C5 witness: with keywords ["Chase", "Wells Fargo"], a description
containing both lands under "Chase" only, and a transaction matching
neither lands under "Unmatched". -/
theorem c5_filter_by_keywords_spec_witness :
    dictLookup
      (filter_by_keywords
        [⟨"01/02/2026", "Payment from Chase and Wells Fargo", mkRat 5 1,
          "+5.00", "credit", some "Deposits"⟩,
         ⟨"01/03/2026", "Local grocery", -(mkRat 7 1), "-7.00", "debit",
          some "Withdrawals"⟩]
        ["Chase", "Wells Fargo"]) "Chase" =
      some ([⟨"01/02/2026", "Payment from Chase and Wells Fargo", mkRat 5 1,
          "+5.00", "credit", some "Deposits"⟩,
         ⟨"01/03/2026", "Local grocery", -(mkRat 7 1), "-7.00", "debit",
          some "Withdrawals"⟩].filter
        (fun t => first_matching_keyword ["Chase", "Wells Fargo"] t =
          some "Chase")) :=
  (c5_filter_by_keywords_spec
    [⟨"01/02/2026", "Payment from Chase and Wells Fargo", mkRat 5 1,
      "+5.00", "credit", some "Deposits"⟩,
     ⟨"01/03/2026", "Local grocery", -(mkRat 7 1), "-7.00", "debit",
      some "Withdrawals"⟩]
    ["Chase", "Wells Fargo"] (by decide) (by decide)).1 "Chase" (by decide)

end CompanyApp
